import Mathlib

/-!
# The singleton Logger of `Logger/src/Logger.cpp`

A shallow embedding of the logger: its static members become the fields of
one record that every operation takes and gives back, and the text written
to the target stream is accumulated in the field `m_stream`.

Modelling decisions, all visible in the definitions below:

* `int` values are integers in `[INT_MIN, INT_MAX]`; `abs` is undefined at
  `INT_MIN` and gives `none` there, and so does a member that calls it.
* `unsigned int m_nrLogs` is a natural number and `++m_nrLogs` is taken
  modulo `2 ^ 32`.
* `double` is an abstract type `D`; what `operator<<` prints for a `float`
  and for a `double` is given by a `Render D`.
* a `va_list` is the list of the (promoted) variadic arguments; reading an
  argument of the wrong type, or reading past the end, is undefined
  behaviour and gives `none`.
* the loop index `i` of `logX` is a natural number: descriptors are taken
  shorter than `2 ^ 31` characters.
* the scratch union `m_currType` is not part of the record: every member is
  written before it is read, and only within one switch case.
* a write to the target stream completes, except where the source provides
  for an exception: the element writes of the grid log stand in a try block,
  and a `Target` says which of them raise an exception.
* the pointer `m_stream` and the `delete` expressions of `setStream` and of the
  destructor are kept in a `Process` around the record: which stream the
  pointer refers to, and the operands deleted so far.
-/

set_option autoImplicit false

/-! ## Machine integers -/

namespace Cstd

/-- Smallest value of the 32 bit `int`. -/
def INT_MIN : Int := -2147483648

/-- Largest value of the 32 bit `int`. -/
def INT_MAX : Int := 2147483647

/-- Number of values of `unsigned int`. -/
def UINT_SIZE : Nat := 4294967296

/-- Reduction of an integer into the range of `int` (two's complement). -/
def wrapInt (z : Int) : Int := (z + 2147483648) % 4294967296 - 2147483648

/-- The function `abs` of `<stdlib.h>` on `int`: the absolute value of
`INT_MIN` cannot be represented and the behaviour is undefined there, which is
`none`. -/
def abs (n : Int) : Option Int :=
  if n = INT_MIN then none else some (if n < 0 then -n else n)

/-- The character that ends a C string. -/
def NUL : Char := Char.ofNat 0

/-- Conversion of an `int` to `char` as done by `m_currType.c = va_arg(vl, int)`:
the low eight bits are kept. -/
def intToChar (v : Int) : Char := Char.ofNat (v % 256).toNat

/-- Text of `str.c_str()` read back as a C string: the characters before the
first NUL. -/
def c_str (str : String) : String := String.mk (str.data.takeWhile (fun ch => ch ≠ NUL))

/-- What `std::endl` writes. -/
def endl : String := "\n"

end Cstd

/-! ## Data model -/

/-- What `operator<<` prints for a floating point value. `ofFloat x` is the
text for `x` after it has been stored in the `float` member `m_currType.f`;
`ofDouble x` is the text for the `double` `x` itself. -/
structure Render (D : Type) where
  ofFloat : D → String
  ofDouble : D → String

/-- How the target stream takes the statement
`*m_stream << d[i][j] << m_separator` of the grid log, which stands in a try
block: `throwsAt i j` is `none` when the statement completes, and `some t` when
it raises an exception after the text `t` has gone out. -/
structure Target where
  throwsAt : Nat → Nat → Option String

/-- One variadic argument after the default argument promotions: an `int`
(also for `bool` and `char`), a `double` (also for `float`) or a `char *`,
given by the text before its terminating NUL, `none` for the null pointer. -/
inductive VaArg (D : Type) where
  | int (v : Int)
  | double (x : D)
  | str (p : Option String)

/-- The static members of `Logger`. `m_stream` holds the text written to the
target stream so far. -/
structure Logger where
  m_prefix : String
  m_postfix : String
  m_separator : String
  m_output : Bool
  m_endl : Bool
  m_stream : String
  m_nrLogs : Nat
deriving DecidableEq

namespace Logger

/-- Statement `*m_stream << t`. -/
def write (s : Logger) (t : String) : Logger :=
  { s with m_stream := s.m_stream ++ t }

/-- Statement `++m_nrLogs` on the `unsigned int` counter. -/
def incNrLogs (s : Logger) : Logger :=
  { s with m_nrLogs := (s.m_nrLogs + 1) % Cstd.UINT_SIZE }

/-! ## Helpers: `newLine` and `printTimes` -/

/-- Loop `for(int i = 0; i < abs(nr); ++i) *m_stream << std::endl;`, given the
number of iterations that are left. -/
def newLineLoop : Nat → Logger → Logger
  | 0, s => s
  | k + 1, s => newLineLoop k (s.write Cstd.endl)

/-- Member `Logger::newLine`. -/
def newLine (s : Logger) (nr : Int) : Option Logger :=
  if s.m_output then
    match Cstd.abs nr with
    | none => none
    | some a => some (newLineLoop a.toNat s)
  else some s

/-- Loop of `printTimes` from index `i`, given the number of iterations that
are left. -/
def printTimesLoop (str : String) (separator : Bool) : Nat → Nat → Logger → Logger
  | 0, _, s => s
  | k + 1, i, s =>
    let s1 := if i ≠ 0 ∧ separator = true then s.write s.m_separator else s
    printTimesLoop str separator k (i + 1) (s1.write str)

/-- Member `Logger::printTimes`. -/
def printTimes (s : Logger) (times : Int) (str : String) (separator : Bool) :
    Option Logger :=
  if s.m_output then
    match Cstd.abs times with
    | none => none
    | some a =>
      if a > 0 then
        let s1 := s.write s.m_prefix
        let s2 := printTimesLoop str separator a.toNat 0 s1
        let s3 := s2.write s2.m_postfix
        some (if s3.m_endl then s3.write Cstd.endl else s3)
      else some s
  else some s

/-! ## Typed sequences: `logX` -/

/-- Read `va_arg(vl, int)`. -/
def va_arg_int {D : Type} : List (VaArg D) → Option (Int × List (VaArg D))
  | VaArg.int v :: vl => some (v, vl)
  | _ => none

/-- Read `va_arg(vl, double)`. -/
def va_arg_double {D : Type} : List (VaArg D) → Option (D × List (VaArg D))
  | VaArg.double x :: vl => some (x, vl)
  | _ => none

/-- Read `va_arg(vl, char *)`. -/
def va_arg_str {D : Type} : List (VaArg D) → Option (Option String × List (VaArg D))
  | VaArg.str p :: vl => some (p, vl)
  | _ => none

/-- The `switch(szTypes[i])` of `logX`: the text written for the tag `ch` and
the arguments that are left. -/
def logXSwitch {D : Type} (r : Render D) (ch : Char) (vl : List (VaArg D)) :
    Option (String × List (VaArg D)) :=
  if ch = 'b' then
    (va_arg_int vl).map (fun p => (if p.1 = 0 then "false" else "true", p.2))
  else if ch = 'i' then
    (va_arg_int vl).map (fun p => (toString p.1, p.2))
  else if ch = 'f' ∨ ch = 'd' then
    (va_arg_double vl).map (fun p => (r.ofFloat p.1, p.2))
  else if ch = 'c' then
    (va_arg_int vl).map (fun p => (String.singleton (Cstd.intToChar p.1), p.2))
  else if ch = 's' then
    (va_arg_str vl).map (fun p => (p.1.getD "", p.2))
  else
    some ("", vl)

/-- Loop `for( ; szTypes[i] != 0; ++i)` of `logX` on the characters from index
`i` on; gives the final `i` and the logger. -/
def logXLoop {D : Type} (r : Render D) :
    List Char → Nat → List (VaArg D) → Logger → Option (Nat × Logger)
  | [], i, _, s => some (i, s)
  | ch :: rest, i, vl, s =>
    if ch = Cstd.NUL then some (i, s)
    else
      let s1 := if i = 0 then s.write s.m_prefix else s.write s.m_separator
      match logXSwitch r ch vl with
      | none => none
      | some (t, vl1) => logXLoop r rest (i + 1) vl1 (s1.write t)

/-- Member `Logger::logX`: the value returned and the logger after the call. -/
def logX {D : Type} (r : Render D) (s : Logger) (szTypes : String) (vl : List (VaArg D)) :
    Option (Int × Logger) :=
  if s.m_output then
    match logXLoop r szTypes.data 0 vl s with
    | none => none
    | some (i, s1) =>
      if i ≠ 0 then
        let s2 := s1.write s1.m_postfix
        let s3 := if s2.m_endl then s2.write Cstd.endl else s2
        some ((i : Int), s3.incNrLogs)
      else some ((i : Int), s1)
  else some (0, s)

/-! ## Single values and grids: `log` -/

/-- Conversion of the `int` result of `logX` to the `bool` result of `log`. -/
def toBool (res : Option (Int × Logger)) : Option (Bool × Logger) :=
  res.map (fun p => (decide (p.1 ≠ 0), p.2))

/-- Member `Logger::log(const std::string)`. -/
def log_string {D : Type} (r : Render D) (s : Logger) (str : String) : Option (Bool × Logger) :=
  toBool (logX r s "s" [VaArg.str (some (Cstd.c_str str))])

/-- Member `Logger::log(const int)`. -/
def log_int {D : Type} (r : Render D) (s : Logger) (i : Int) : Option (Bool × Logger) :=
  toBool (logX r s "i" [VaArg.int i])

/-- Member `Logger::log(const double)`. -/
def log_double {D : Type} (r : Render D) (s : Logger) (d : D) : Option (Bool × Logger) :=
  toBool (logX r s "d" [VaArg.double d])

/-- Inner loop `for(int j = 0; j < cols; ++j)` of the grid log on row `row`
of index `i`, from index `j`, given the number of iterations that are left.
Reading outside the row is undefined. The result is `true` with the logger
when the loop completes, and `false` with the logger when an element write
raised an exception, which the `catch (...)` answers with `return false`. -/
def logGridCols {D : Type} (r : Render D) (t : Target) (row : List D) (i : Nat) :
    Nat → Nat → Logger → Option (Bool × Logger)
  | 0, _, s => some (true, s)
  | k + 1, j, s =>
    match row[j]? with
    | none => none
    | some x =>
      match t.throwsAt i j with
      | some part => some (false, s.write part)
      | none =>
        logGridCols r t row i k (j + 1) ((s.write (r.ofDouble x)).write s.m_separator)

/-- Outer loop `for(int i = 0; i < rows; ++i)` of the grid log, from index `i`,
given the number of iterations that are left; the result is as for the inner
loop. -/
def logGridRows {D : Type} (r : Render D) (t : Target) (d : List (List D)) (cols : Int) :
    Nat → Nat → Logger → Option (Bool × Logger)
  | 0, _, s => some (true, s)
  | k + 1, i, s =>
    match d[i]? with
    | none => none
    | some row =>
      match logGridCols r t row i cols.toNat 0 s with
      | none => none
      | some q =>
        if q.1 then
          logGridRows r t d cols k (i + 1) (if q.2.m_endl then q.2.write Cstd.endl else q.2)
        else some (false, q.2)

/-- Member `Logger::log(double **, const int, const int)`; `none` for the grid
is the null pointer. -/
def log_grid {D : Type} (r : Render D) (t : Target) (s : Logger)
    (d : Option (List (List D))) (rows cols : Int) : Option (Bool × Logger) :=
  match d with
  | none => some (false, s)
  | some g =>
    if s.m_output then
      match logGridRows r t g cols rows.toNat 0 s with
      | none => none
      | some q => if q.1 then some (true, q.2.incNrLogs) else some (false, q.2)
    else some (false, s)

end Logger

/-! ## Typed sequences as the caller sees them -/

/-- One element of a typed sequence: the tag of the descriptor together with
the value passed for it. -/
inductive Elem (D : Type) where
  | b (v : Bool)
  | i (v : Int)
  | f (x : D)
  | d (x : D)
  | c (ch : Char)
  | s (p : Option String)

namespace Elem

/-- Character of the descriptor for an element. -/
def tag {D : Type} : Elem D → Char
  | b _ => 'b'
  | i _ => 'i'
  | f _ => 'f'
  | d _ => 'd'
  | c _ => 'c'
  | s _ => 's'

/-- Variadic argument for an element, after the default argument promotions. -/
def arg {D : Type} : Elem D → VaArg D
  | b v => VaArg.int (if v then 1 else 0)
  | i v => VaArg.int v
  | f x => VaArg.double x
  | d x => VaArg.double x
  | c ch => VaArg.int (ch.toNat : Int)
  | s p => VaArg.str p

/-- Expected rendering of an element. -/
def text {D : Type} (r : Render D) : Elem D → String
  | b v => if v then "true" else "false"
  | i v => toString v
  | f x => r.ofFloat x
  | d x => r.ofFloat x
  | c ch => String.singleton ch
  | s p => match p with
    | some t => t
    | none => ""

/-- An element that fits its C type: a `char` is one byte. -/
def fits {D : Type} : Elem D → Prop
  | c ch => ch.toNat < 256
  | _ => True

end Elem

/-- Descriptor string of a typed sequence. -/
def descriptor {D : Type} (es : List (Elem D)) : String := String.mk (es.map Elem.tag)

/-- Argument list of a typed sequence. -/
def arguments {D : Type} (es : List (Elem D)) : List (VaArg D) := es.map Elem.arg

/-- The line terminator when line ending is enabled, nothing otherwise. -/
def lineEnd (s : Logger) : String := if s.m_endl then Cstd.endl else ""

/-- Every string of the list preceded by the separator. -/
def sepBefore (sep : String) : List String → String
  | [] => ""
  | x :: xs => sep ++ x ++ sepBefore sep xs

/-- The argument list supplies what `logX` reads for the descriptor: for
every recognised tag before the first NUL an argument of the promoted type, in
order; other characters take no argument. -/
def argsMatch {D : Type} : List Char → List (VaArg D) → Bool
  | [], _ => true
  | ch :: rest, vl =>
    if ch = Cstd.NUL then true
    else if ch = 'b' ∨ ch = 'i' ∨ ch = 'c' then
      match vl with
      | VaArg.int _ :: vl1 => argsMatch rest vl1
      | _ => false
    else if ch = 'f' ∨ ch = 'd' then
      match vl with
      | VaArg.double _ :: vl1 => argsMatch rest vl1
      | _ => false
    else if ch = 's' then
      match vl with
      | VaArg.str _ :: vl1 => argsMatch rest vl1
      | _ => false
    else argsMatch rest vl

/-- Number of characters of a descriptor before its first NUL. -/
def tagCount (d : List Char) : Nat := (d.takeWhile (fun ch => ch ≠ Cstd.NUL)).length

/-- Text of one row of a grid: every element followed by the separator. -/
def rowText {D : Type} (r : Render D) (sep : String) : List D → String
  | [] => ""
  | x :: xs => r.ofDouble x ++ sep ++ rowText r sep xs

/-- Text of a grid: every row followed by `le`, the line end in force. -/
def gridText {D : Type} (r : Render D) (sep le : String) : List (List D) → String
  | [] => ""
  | row :: rows => rowText r sep row ++ le ++ gridText r sep le rows

/-! ## Setters, resetters and getters -/

namespace Logger

/-- Member `Logger::setPrefix`. -/
def setPrefix (s : Logger) (text : String) : Logger := { s with m_prefix := text }

/-- Member `Logger::setPostfix`. -/
def setPostfix (s : Logger) (text : String) : Logger := { s with m_postfix := text }

/-- Member `Logger::setSeparator`. -/
def setSeparator (s : Logger) (separator : String) : Logger := { s with m_separator := separator }

/-- Member `Logger::setOutput`. -/
def setOutput (s : Logger) (output : Bool) : Logger := { s with m_output := output }

/-- Member `Logger::setEndline`. -/
def setEndline (s : Logger) (endline : Bool) : Logger := { s with m_endl := endline }

/-- Member `Logger::resetNrOfLogs`. -/
def resetNrOfLogs (s : Logger) : Logger := { s with m_nrLogs := 0 }

/-- Member `Logger::clearPrefix`. -/
def clearPrefix (s : Logger) : Logger := { s with m_prefix := "" }

/-- Member `Logger::clearPostfix`. -/
def clearPostfix (s : Logger) : Logger := { s with m_postfix := "" }

/-- Member `Logger::resetSeparator`. -/
def resetSeparator (s : Logger) : Logger := { s with m_separator := " " }

/-- Member `Logger::getNrOfLogs`: `return int(m_nrLogs)` with the result type
`unsigned int`, so the counter goes to `int` and back. -/
def getNrOfLogs (s : Logger) : Nat := (Cstd.wrapInt (s.m_nrLogs : Int) % 4294967296).toNat

/-- Member `Logger::getPrefix`. -/
def getPrefix (s : Logger) : String := s.m_prefix

/-- Member `Logger::getPostfix`. -/
def getPostfix (s : Logger) : String := s.m_postfix

/-- Member `Logger::getSeparator`. -/
def getSeparator (s : Logger) : String := s.m_separator

/-- Member `Logger::output`. -/
def output (s : Logger) : Bool := s.m_output

/-- Member `Logger::endl`. -/
def endl (s : Logger) : Bool := s.m_endl

end Logger

/-! ## The target stream and its ownership -/

/-- A stream that the pointer `m_stream` can refer to: `std::cout` or a stream
of the caller, told apart by a number. The pointer is never null: it starts
at `&std::cout` and `setStream` takes a reference. -/
inductive StreamRef where
  | cout
  | caller (n : Nat)
deriving DecidableEq

/-- Operand of a `delete` expression: a stream object, or the static pointer
variable `m_stream` itself, which is what `delete(&m_stream)` names. -/
inductive DeleteOperand where
  | stream (r : StreamRef)
  | m_stream_variable
deriving DecidableEq

/-- The logger together with its target: `statics` are the members of the
record above, where `m_stream` collects the text written through the pointer,
whichever stream it referred to; `m_streamRef` is the stream the pointer refers
to; `deleted` lists the operands of the `delete` expressions run so far. -/
structure Process where
  statics : Logger
  m_streamRef : StreamRef
  deleted : List DeleteOperand
deriving DecidableEq

namespace Process

/-- The state at program start: `m_stream = &std::cout`, nothing deleted. -/
def start (s : Logger) : Process := ⟨s, StreamRef.cout, []⟩

/-- Statement `if (m_stream && (m_stream!=&std::cout)) delete(&m_stream);`,
shared by `setStream` and the destructor. -/
def deleteUnlessCout (p : Process) : Process :=
  if p.m_streamRef ≠ StreamRef.cout then
    { p with deleted := p.deleted ++ [DeleteOperand.m_stream_variable] }
  else p

/-- Member `Logger::setStream`. -/
def setStream (p : Process) (stream : StreamRef) : Process :=
  { p.deleteUnlessCout with m_streamRef := stream }

/-- Destructor `Logger::~Logger`. -/
def destructor (p : Process) : Process := p.deleteUnlessCout

/-- A sequence of `setStream` calls. -/
def setStreams (p : Process) : List StreamRef → Process
  | [] => p
  | stream :: rest => setStreams (p.setStream stream) rest

end Process

/-! ## Operations -/

/-- A call of a public member of `Logger`, with its arguments; for the grid
log also how the target takes the element writes. -/
inductive Op (D : Type) where
  | newLine (nr : Int)
  | printTimes (times : Int) (str : String) (separator : Bool)
  | log_string (str : String)
  | log_int (i : Int)
  | log_double (d : D)
  | log_grid (t : Target) (d : Option (List (List D))) (rows cols : Int)
  | logX (szTypes : String) (vl : List (VaArg D))
  | setPrefix (text : String)
  | setPostfix (text : String)
  | setSeparator (separator : String)
  | setOutput (output : Bool)
  | setEndline (endline : Bool)
  | setStream (stream : StreamRef)
  | resetNrOfLogs
  | clearPrefix
  | clearPostfix
  | resetSeparator
  | getNrOfLogs
  | getPrefix
  | getPostfix
  | getSeparator
  | output
  | endl

namespace Op

/-- A member that works on the static members only. -/
def onStatics (p : Process) (f : Logger → Logger) : Option Process :=
  some { p with statics := f p.statics }

/-- A member without a result that can be undefined. -/
def onResult (p : Process) (res : Option Logger) : Option Process :=
  res.map (fun s => { p with statics := s })

/-- A member with a result: the result is dropped, the state kept. -/
def dropResult {α : Type} (p : Process) (res : Option (α × Logger)) : Option Process :=
  res.map (fun q => { p with statics := q.2 })

/-- The state after a call; `none` where the call is undefined. -/
def run {D : Type} (r : Render D) (op : Op D) (p : Process) : Option Process :=
  match op with
  | newLine nr => onResult p (p.statics.newLine nr)
  | printTimes times str separator => onResult p (p.statics.printTimes times str separator)
  | log_string str => dropResult p (Logger.log_string r p.statics str)
  | log_int i => dropResult p (Logger.log_int r p.statics i)
  | log_double d => dropResult p (Logger.log_double r p.statics d)
  | log_grid t d rows cols => dropResult p (Logger.log_grid r t p.statics d rows cols)
  | logX szTypes vl => dropResult p (Logger.logX r p.statics szTypes vl)
  | setPrefix text => onStatics p (fun s => s.setPrefix text)
  | setPostfix text => onStatics p (fun s => s.setPostfix text)
  | setSeparator separator => onStatics p (fun s => s.setSeparator separator)
  | setOutput b => onStatics p (fun s => s.setOutput b)
  | setEndline b => onStatics p (fun s => s.setEndline b)
  | setStream stream => some (p.setStream stream)
  | resetNrOfLogs => onStatics p Logger.resetNrOfLogs
  | clearPrefix => onStatics p Logger.clearPrefix
  | clearPostfix => onStatics p Logger.clearPostfix
  | resetSeparator => onStatics p Logger.resetSeparator
  | getNrOfLogs => some p
  | getPrefix => some p
  | getPostfix => some p
  | getSeparator => some p
  | output => some p
  | endl => some p

/-- The calls that reach `++m_nrLogs` when output is enabled: a single value,
a grid that is not the null pointer, and a typed sequence whose descriptor has
a character before its first NUL. -/
def reachesIncrement {D : Type} : Op D → Bool
  | log_string _ => true
  | log_int _ => true
  | log_double _ => true
  | log_grid _ d _ _ => d.isSome
  | logX szTypes _ => decide (tagCount szTypes.data ≠ 0)
  | _ => false

/-- The arguments of a call fit it: the argument list of `logX` matches the
descriptor, a grid has `rows` rows of `cols` elements each, and the count of
`newLine` and `printTimes` has an absolute value. Every other call is defined
whatever its arguments. -/
def wellFormed {D : Type} : Op D → Bool
  | logX szTypes vl => argsMatch szTypes.data vl
  | log_grid _ (some g) rows cols =>
    decide ((g.length : Int) = rows) && g.all (fun row => decide ((row.length : Int) = cols))
  | newLine nr => decide (nr ≠ Cstd.INT_MIN)
  | printTimes times _ _ => decide (times ≠ Cstd.INT_MIN)
  | _ => true

end Op

/-! ## Comparisons -/

/-- Single-value emission in the words of the specification: a one-element
typed sequence of the tag of the value is handed to typed-sequence emission,
and the result is whether the element count is at least 1. -/
def emitValue {D : Type} (r : Render D) (s : Logger) (e : Elem D) : Option (Bool × Logger) :=
  (Logger.logX r s (descriptor [e]) (arguments [e])).map (fun p => (decide (1 ≤ p.1), p.2))

/-- The tags that the switch of `logX` has a case for. -/
def recognised (ch : Char) : Bool :=
  decide (ch = 'b' ∨ ch = 'i' ∨ ch = 'f' ∨ ch = 'd' ∨ ch = 'c' ∨ ch = 's')

/-- A call of `logX` with every unrecognised tag before the first NUL replaced
by an `s` element with empty text: the descriptor gets `s` in its place and
the argument list `""` at the matching position. -/
def asEmptyStrings {D : Type} : List Char → List (VaArg D) → List Char × List (VaArg D)
  | [], vl => ([], vl)
  | ch :: rest, vl =>
    if ch = Cstd.NUL then (ch :: rest, vl)
    else if recognised ch = true then
      match vl with
      | a :: vl1 => (ch :: (asEmptyStrings rest vl1).1, a :: (asEmptyStrings rest vl1).2)
      | [] => (ch :: rest, [])
    else ('s' :: (asEmptyStrings rest vl).1, VaArg.str (some "") :: (asEmptyStrings rest vl).2)

/-- A renderer for examples: doubles that are whole numbers. -/
def Render.whole : Render Int := ⟨toString, toString⟩

/-- A target on which every write completes. -/
def Target.sound : Target := ⟨fun _ _ => none⟩

/-- The logger of the decoration example: prefix `P-`, postfix `-Q`, separator
`|`, everything enabled, nothing written yet. -/
def Logger.decorated : Logger := ⟨"P-", "-Q", "|", true, true, "", 0⟩

/-! ## Basic facts -/

namespace Logger

@[simp] theorem write_m_prefix (s : Logger) (t : String) : Logger.m_prefix (s.write t) = s.m_prefix := rfl
@[simp] theorem write_m_postfix (s : Logger) (t : String) : Logger.m_postfix (s.write t) = s.m_postfix := rfl
@[simp] theorem write_m_separator (s : Logger) (t : String) :
    (s.write t).m_separator = s.m_separator := rfl
@[simp] theorem write_m_output (s : Logger) (t : String) : (s.write t).m_output = s.m_output := rfl
@[simp] theorem write_m_endl (s : Logger) (t : String) : (s.write t).m_endl = s.m_endl := rfl
@[simp] theorem write_m_nrLogs (s : Logger) (t : String) : (s.write t).m_nrLogs = s.m_nrLogs := rfl
@[simp] theorem write_m_stream (s : Logger) (t : String) :
    (s.write t).m_stream = s.m_stream ++ t := rfl

theorem write_write (s : Logger) (t u : String) : (s.write t).write u = s.write (t ++ u) := by
  simp [write, String.append_assoc]

theorem write_empty (s : Logger) : s.write "" = s := by
  cases s; simp [write]

end Logger

theorem intercalate_go_eq (sep : String) (xs : List String) (acc : String) :
    String.intercalate.go acc sep xs = acc ++ sepBefore sep xs := by
  induction xs generalizing acc with
  | nil => simp [String.intercalate.go, sepBefore]
  | cons x xs ih => simp [String.intercalate.go, sepBefore, ih, String.append_assoc]

theorem intercalate_cons (sep x : String) (xs : List String) :
    String.intercalate sep (x :: xs) = x ++ sepBefore sep xs := by
  simp [String.intercalate, intercalate_go_eq]

theorem intToChar_toNat (ch : Char) (h : ch.toNat < 256) :
    Cstd.intToChar (ch.toNat : Int) = ch := by
  have h1 : ((ch.toNat : Int) % 256).toNat = ch.toNat := by omega
  simp [Cstd.intToChar, h1]

theorem tag_ne_NUL {D : Type} (e : Elem D) : e.tag ≠ Cstd.NUL := by
  cases e <;> simp only [Elem.tag] <;> decide

theorem logXSwitch_elem {D : Type} (r : Render D) (e : Elem D) (h : e.fits)
    (vl : List (VaArg D)) :
    Logger.logXSwitch r e.tag (e.arg :: vl) = some (e.text r, vl) := by
  cases e with
  | b v => cases v <;> simp [Logger.logXSwitch, Elem.tag, Elem.arg, Elem.text, Logger.va_arg_int]
  | i v => simp [Logger.logXSwitch, Elem.tag, Elem.arg, Elem.text, Logger.va_arg_int]
  | f x => simp [Logger.logXSwitch, Elem.tag, Elem.arg, Elem.text, Logger.va_arg_double]
  | d x => simp [Logger.logXSwitch, Elem.tag, Elem.arg, Elem.text, Logger.va_arg_double]
  | c ch =>
    have h1 : Cstd.intToChar (ch.toNat : Int) = ch := intToChar_toNat ch h
    simp [Logger.logXSwitch, Elem.tag, Elem.arg, Elem.text, Logger.va_arg_int, h1]
  | s p => cases p <;> simp [Logger.logXSwitch, Elem.tag, Elem.arg, Elem.text, Logger.va_arg_str]

theorem logXLoop_elems {D : Type} (r : Render D) (es : List (Elem D))
    (h : ∀ e ∈ es, e.fits) (i : Nat) (hi : i ≠ 0) (s : Logger) :
    Logger.logXLoop r (es.map Elem.tag) i (es.map Elem.arg) s
      = some (i + es.length, s.write (sepBefore s.m_separator (es.map (Elem.text r)))) := by
  induction es generalizing i s with
  | nil => simp [Logger.logXLoop, sepBefore, Logger.write_empty]
  | cons e es ih =>
    have he : e.fits := h e (List.mem_cons_self _ _)
    have hes : ∀ x ∈ es, x.fits := fun x hx => h x (List.mem_cons_of_mem _ hx)
    simp only [List.map_cons, Logger.logXLoop, if_neg (tag_ne_NUL e), if_neg hi,
      logXSwitch_elem r e he]
    rw [ih hes (i + 1) (by omega)]
    simp [Logger.write_write, sepBefore, String.append_assoc]
    omega

theorem logXSwitch_of_argsMatch {D : Type} (r : Render D) (ch : Char) (rest : List Char)
    (vl : List (VaArg D)) (hch : ch ≠ Cstd.NUL) (h : argsMatch (ch :: rest) vl = true) :
    ∃ t vl1, Logger.logXSwitch r ch vl = some (t, vl1) ∧ argsMatch rest vl1 = true := by
  unfold argsMatch at h
  rw [if_neg hch] at h
  unfold Logger.logXSwitch
  by_cases hb : ch = 'b'
  · subst hb
    cases vl with
    | nil => simp at h
    | cons a vl =>
      cases a <;> simp_all [Logger.va_arg_int]
      exact ⟨_, _, ⟨rfl, rfl⟩, h⟩
  by_cases hi : ch = 'i'
  · subst hi
    cases vl with
    | nil => simp at h
    | cons a vl =>
      cases a <;> simp_all [Logger.va_arg_int]
      exact ⟨_, _, ⟨rfl, rfl⟩, h⟩
  by_cases hc : ch = 'c'
  · subst hc
    cases vl with
    | nil => simp at h
    | cons a vl =>
      cases a <;> simp_all [Logger.va_arg_int]
      exact ⟨_, _, ⟨rfl, rfl⟩, h⟩
  by_cases hf : ch = 'f'
  · subst hf
    cases vl with
    | nil => simp at h
    | cons a vl =>
      cases a <;> simp_all [Logger.va_arg_double]
      exact ⟨_, _, ⟨rfl, rfl⟩, h⟩
  by_cases hd : ch = 'd'
  · subst hd
    cases vl with
    | nil => simp at h
    | cons a vl =>
      cases a <;> simp_all [Logger.va_arg_double]
      exact ⟨_, _, ⟨rfl, rfl⟩, h⟩
  by_cases hs : ch = 's'
  · subst hs
    cases vl with
    | nil => simp at h
    | cons a vl =>
      cases a <;> simp_all [Logger.va_arg_str]
      exact ⟨_, _, ⟨rfl, rfl⟩, h⟩
  simp_all
  exact ⟨_, _, ⟨rfl, rfl⟩, h⟩

theorem logXLoop_of_argsMatch {D : Type} (r : Render D) (d : List Char) :
    ∀ (vl : List (VaArg D)) (i : Nat) (s : Logger), argsMatch d vl = true →
      ∃ t, Logger.logXLoop r d i vl s = some (i + tagCount d, s.write t) := by
  induction d with
  | nil =>
    intro vl i s _
    exact ⟨"", by simp [Logger.logXLoop, tagCount, Logger.write_empty]⟩
  | cons ch rest ih =>
    intro vl i s h
    by_cases hch : ch = Cstd.NUL
    · exact ⟨"", by simp [Logger.logXLoop, tagCount, hch, Logger.write_empty]⟩
    · obtain ⟨t, vl1, hsw, hrest⟩ := logXSwitch_of_argsMatch r ch rest vl hch h
      have hcount : tagCount (ch :: rest) = tagCount rest + 1 := by
        simp [tagCount, List.takeWhile_cons, hch]
      by_cases hi : i = 0
      · obtain ⟨u, hu⟩ := ih vl1 (i + 1) ((s.write s.m_prefix).write t) hrest
        refine ⟨ s.m_prefix ++ t ++ u, ?_⟩
        simp only [Logger.logXLoop, if_neg hch, if_pos hi, hsw, hu, hcount]
        simp [Logger.write_write, String.append_assoc]
        omega
      · obtain ⟨u, hu⟩ := ih vl1 (i + 1) ((s.write s.m_separator).write t) hrest
        refine ⟨s.m_separator ++ t ++ u, ?_⟩
        simp only [Logger.logXLoop, if_neg hch, if_neg hi, hsw, hu, hcount]
        simp [Logger.write_write, String.append_assoc]
        omega

theorem logX_one_tag {D : Type} (r : Render D) (s : Logger) (ch : Char) (a : VaArg D)
    (t : String) (hout : s.m_output = true) (hch : ch ≠ Cstd.NUL)
    (hsw : Logger.logXSwitch r ch [a] = some (t, [])) :
    Logger.logX r s (String.mk [ch]) [a]
      = some (1, { s with
          m_stream := s.m_stream ++ s.m_prefix ++ t ++ s.m_postfix
            ++ (if s.m_endl = true then "\n" else ""),
          m_nrLogs := (s.m_nrLogs + 1) % 4294967296 }) := by
  simp only [Logger.logX, hout, if_true, Logger.logXLoop, if_neg hch, hsw]
  cases hendl : s.m_endl <;>
    simp [Logger.write, Logger.incNrLogs, hendl, hout, String.append_assoc, Cstd.endl,
      Cstd.UINT_SIZE]

/-! ## Typed sequences with recognised tags -/

/-- C1: with output enabled, `logX` on a non-empty typed sequence whose tags
are all recognised appends to the stream the prefix, the renderings of the
elements in order with the separator between consecutive ones, the postfix and
the line terminator exactly when line ending is enabled; it returns the number
of elements and changes nothing else but the counter. -/
theorem logX_writes_decorated_sequence {D : Type} (r : Render D) (s : Logger)
    (es : List (Elem D)) (hout : s.m_output = true) (hne : es ≠ [])
    (hfit : ∀ e ∈ es, e.fits) :
    Logger.logX r s (descriptor es) (arguments es)
      = some ((es.length : Int),
          { s with
            m_stream := s.m_stream ++ s.m_prefix
              ++ String.intercalate s.m_separator (es.map (Elem.text r))
              ++ s.m_postfix ++ (if s.m_endl = true then "\n" else ""),
            m_nrLogs := (s.m_nrLogs + 1) % 4294967296 }) := by
  cases es with
  | nil => exact absurd rfl hne
  | cons e es =>
    have he : e.fits := hfit e (List.mem_cons_self _ _)
    have hes : ∀ x ∈ es, x.fits := fun x hx => hfit x (List.mem_cons_of_mem _ hx)
    have hloop := logXLoop_elems r es hes 1 (by decide)
      ((s.write s.m_prefix).write (e.text r))
    simp only [Logger.logX, hout, descriptor, arguments, List.map_cons, Logger.logXLoop,
      if_neg (tag_ne_NUL e), logXSwitch_elem r e he, if_true, hloop]
    have hlen : 1 + es.length ≠ 0 := by omega
    rw [if_pos hlen]
    cases hendl : s.m_endl <;>
      simp [Logger.write, Logger.incNrLogs, hendl, hout, intercalate_cons,
        String.append_assoc, Cstd.endl, Cstd.UINT_SIZE, Nat.add_comm]

/-- C1, the decoration example: prefix `P-`, postfix `-Q`, separator `|` and
`logX("ii", 1, 2)` write `P-1|2-Q` and one line terminator. -/
theorem logX_writes_decorated_sequence_witness :
    Logger.logX Render.whole Logger.decorated "ii" [VaArg.int 1, VaArg.int 2]
      = some (2, { Logger.decorated with m_stream := "P-1|2-Q\n", m_nrLogs := 1 }) :=
  logX_writes_decorated_sequence Render.whole Logger.decorated [Elem.i 1, Elem.i 2] rfl
    (by simp) (by intro e he; simp at he; rcases he with rfl | rfl <;> trivial)

/-! ## Calls that do nothing -/

/-- C5: when output is disabled or the descriptor is empty, `logX` returns 0
and gives back the logger as it was: nothing is written, the success count is
unchanged. -/
theorem logX_disabled_or_empty {D : Type} (r : Render D) (s : Logger) (szTypes : String)
    (vl : List (VaArg D)) (h : s.m_output = false ∨ szTypes = "") :
    Logger.logX r s szTypes vl = some (0, s) := by
  rcases h with h | h
  · simp [Logger.logX, h]
  · subst h
    cases hout : s.m_output <;> simp [Logger.logX, hout, Logger.logXLoop]

/-- C5 at the decoration example with an empty descriptor. -/
theorem logX_disabled_or_empty_witness :
    Logger.logX Render.whole Logger.decorated "" [VaArg.int 1]
      = some (0, Logger.decorated) :=
  logX_disabled_or_empty Render.whole Logger.decorated "" [VaArg.int 1] (Or.inr rfl)

/-- C6: with output disabled every emission operation gives back the logger as
it was (nothing written, success count unchanged), and those with a result
report `false`, or 0 for `logX`. -/
theorem disabled_output_is_noop {D : Type} (r : Render D) (s : Logger)
    (h : s.m_output = false) :
    (∀ nr : Int, s.newLine nr = some s)
    ∧ (∀ (times : Int) (str : String) (separator : Bool),
        s.printTimes times str separator = some s)
    ∧ (∀ str : String, Logger.log_string r s str = some (false, s))
    ∧ (∀ i : Int, Logger.log_int r s i = some (false, s))
    ∧ (∀ d : D, Logger.log_double r s d = some (false, s))
    ∧ (∀ (t : Target) (d : Option (List (List D))) (rows cols : Int),
        Logger.log_grid r t s d rows cols = some (false, s))
    ∧ (∀ (szTypes : String) (vl : List (VaArg D)), Logger.logX r s szTypes vl = some (0, s)) := by
  refine ⟨?_, ?_, ?_, ?_, ?_, ?_, ?_⟩
  · intro nr; simp [Logger.newLine, h]
  · intro times str separator; simp [Logger.printTimes, h]
  · intro str; simp [Logger.log_string, Logger.toBool, Logger.logX, h]
  · intro i; simp [Logger.log_int, Logger.toBool, Logger.logX, h]
  · intro d; simp [Logger.log_double, Logger.toBool, Logger.logX, h]
  · intro t d rows cols; cases d <;> simp [Logger.log_grid, h]
  · intro szTypes vl; simp [Logger.logX, h]

/-- C6 at the decoration example with output switched off: a typed sequence
writes nothing. -/
theorem disabled_output_is_noop_witness :
    Logger.logX Render.whole { Logger.decorated with m_output := false } "ii"
        [VaArg.int 1, VaArg.int 2]
      = some (0, { Logger.decorated with m_output := false }) :=
  (disabled_output_is_noop Render.whole { Logger.decorated with m_output := false }
    rfl).2.2.2.2.2.2 "ii" [VaArg.int 1, VaArg.int 2]

/-- C9: the grid log given the null pointer returns `false` and gives back the
logger as it was, whatever the state, `rows` and `cols`. -/
theorem log_grid_null {D : Type} (r : Render D) (t : Target) (s : Logger)
    (rows cols : Int) :
    Logger.log_grid r t s (none : Option (List (List D))) rows cols = some (false, s) := by
  simp [Logger.log_grid]

/-! ## The value returned and the success count of `logX` -/

/-- C2, at a failing input: for `logX("ixi", 1, 2)` two arguments are logged,
and the call returns 3. -/
theorem logX_returns_descriptor_length_at_ixi :
    Logger.logX Render.whole Logger.decorated "ixi" [VaArg.int 1, VaArg.int 2]
      = some (3, { Logger.decorated with m_stream := "P-1||2-Q\n", m_nrLogs := 1 }) := by
  decide

/-- C3 fails in two states: from the largest value of the counter one call
takes the success count to 0, and a descriptor that starts with the NUL
character, though not empty, leaves the count as it was. -/
theorem logX_count_not_plus_one :
    (Logger.logX Render.whole { Logger.decorated with m_nrLogs := 4294967295 } "ii"
        [VaArg.int 1, VaArg.int 2]).map (fun p => p.2.m_nrLogs) = some 0
    ∧ String.mk [Cstd.NUL, 'i'] ≠ ""
    ∧ (Logger.logX Render.whole Logger.decorated (String.mk [Cstd.NUL, 'i'])
        [VaArg.int 1]).map (fun p => p.2.m_nrLogs) = some Logger.decorated.m_nrLogs := by
  decide

/-- C3 as amended: with output enabled, for every descriptor whose first
character is not NUL and every argument list that matches it, one call of
`logX` returns the number of characters before the first NUL and takes the
success count `c` to `(c + 1) mod 2 ^ 32`, whatever that number is. -/
theorem logX_counts_one_per_call {D : Type} (r : Render D) (s : Logger) (szTypes : String)
    (vl : List (VaArg D)) (hout : s.m_output = true)
    (hfirst : ∃ ch rest, szTypes.data = ch :: rest ∧ ch ≠ Cstd.NUL)
    (hargs : argsMatch szTypes.data vl = true) :
    ∃ s1, Logger.logX r s szTypes vl = some ((tagCount szTypes.data : Int), s1)
      ∧ s1.m_nrLogs = (s.m_nrLogs + 1) % 4294967296 := by
  obtain ⟨ch, rest, hd, hch⟩ := hfirst
  obtain ⟨t, ht⟩ := logXLoop_of_argsMatch r szTypes.data vl 0 s hargs
  have hcount : tagCount szTypes.data ≠ 0 := by
    simp [hd, tagCount, List.takeWhile_cons, hch]
  simp only [Logger.logX, hout, if_true, ht, Nat.zero_add, if_pos hcount]
  refine ⟨_, rfl, ?_⟩
  cases hendl : s.m_endl <;> simp [Logger.incNrLogs, hendl, Cstd.UINT_SIZE]

/-- C3 as amended, on three elements: the count goes from 0 to 1. -/
theorem logX_counts_one_per_call_witness :
    ∃ s1, Logger.logX Render.whole Logger.decorated "bsi"
        [VaArg.int 1, VaArg.str (some "n"), VaArg.int 7] = some (3, s1)
      ∧ s1.m_nrLogs = 1 :=
  logX_counts_one_per_call Render.whole Logger.decorated "bsi"
    [VaArg.int 1, VaArg.str (some "n"), VaArg.int 7] rfl ⟨'b', ['s', 'i'], rfl, by decide⟩ rfl

/-- C4, at a failing input: the call `logX("ixi", 1, 2)` writes a separator for
the tag `x` and counts it, so that neither the text nor the value returned is
that of `logX("ii", 1, 2)`. -/
theorem logX_unrecognised_tag_not_skipped :
    (Logger.logX Render.whole Logger.decorated "ixi" [VaArg.int 1, VaArg.int 2]).map
        (fun p => (p.1, p.2.m_stream)) = some (3, "P-1||2-Q\n")
    ∧ (Logger.logX Render.whole Logger.decorated "ii" [VaArg.int 1, VaArg.int 2]).map
        (fun p => (p.1, p.2.m_stream)) = some (2, "P-1|2-Q\n") := by
  decide

/-! ## Single values -/

/-- C7 fails at the largest value of the counter: `log(42)` returns `true` and
the success count, 4294967295 before the call, is 0 after it. -/
theorem log_count_wraps_to_zero :
    Logger.log_int Render.whole { Logger.decorated with m_nrLogs := 4294967295 } 42
      = some (true, { Logger.decorated with m_stream := "P-42-Q\n", m_nrLogs := 0 }) := by
  decide

/-- C7 as amended: for every string, int or double and every state, `log`
returns `true` if and only if output is enabled, and when it returns `true`
the success count `c` has become `(c + 1) mod 2 ^ 32`. -/
theorem log_true_iff_output {D : Type} (r : Render D) (s : Logger) :
    (∀ str : String, ∃ b s1, Logger.log_string r s str = some (b, s1)
        ∧ (b = true ↔ s.m_output = true)
        ∧ (b = true → s1.m_nrLogs = (s.m_nrLogs + 1) % 4294967296))
    ∧ (∀ i : Int, ∃ b s1, Logger.log_int r s i = some (b, s1)
        ∧ (b = true ↔ s.m_output = true)
        ∧ (b = true → s1.m_nrLogs = (s.m_nrLogs + 1) % 4294967296))
    ∧ (∀ d : D, ∃ b s1, Logger.log_double r s d = some (b, s1)
        ∧ (b = true ↔ s.m_output = true)
        ∧ (b = true → s1.m_nrLogs = (s.m_nrLogs + 1) % 4294967296)) := by
  cases hout : s.m_output with
  | false =>
    refine ⟨fun str => ⟨false, s, ?_, by simp, by simp⟩, fun i => ⟨false, s, ?_, by simp, by simp⟩,
      fun d => ⟨false, s, ?_, by simp, by simp⟩⟩
    · simp [Logger.log_string, Logger.toBool, Logger.logX, hout]
    · simp [Logger.log_int, Logger.toBool, Logger.logX, hout]
    · simp [Logger.log_double, Logger.toBool, Logger.logX, hout]
  | true =>
    refine ⟨fun str => ?_, fun i => ?_, fun d => ?_⟩
    · have h := logX_one_tag r s 's' (VaArg.str (some (Cstd.c_str str))) (Cstd.c_str str) hout
        (by decide) (by simp [Logger.logXSwitch, Logger.va_arg_str])
      rw [show Logger.log_string r s str
        = Logger.toBool (Logger.logX r s (String.mk ['s']) [VaArg.str (some (Cstd.c_str str))])
        from rfl, h]
      exact ⟨true, _, rfl, by simp, fun _ => rfl⟩
    · have h := logX_one_tag r s 'i' (VaArg.int i) (toString i) hout
        (by decide) (by simp [Logger.logXSwitch, Logger.va_arg_int])
      rw [show Logger.log_int r s i
        = Logger.toBool (Logger.logX r s (String.mk ['i']) [VaArg.int i]) from rfl, h]
      exact ⟨true, _, rfl, by simp, fun _ => rfl⟩
    · have h := logX_one_tag r s 'd' (VaArg.double d) (r.ofFloat d) hout
        (by decide) (by simp [Logger.logXSwitch, Logger.va_arg_double])
      rw [show Logger.log_double r s d
        = Logger.toBool (Logger.logX r s (String.mk ['d']) [VaArg.double d]) from rfl, h]
      exact ⟨true, _, rfl, by simp, fun _ => rfl⟩

/-! ## Grids -/

theorem logGridCols_complete {D : Type} (r : Render D) (t : Target) (row : List D) (i : Nat) :
    ∀ (k j : Nat) (s : Logger), j + k = row.length →
      (∀ j1, j ≤ j1 → j1 < row.length → t.throwsAt i j1 = none) →
      Logger.logGridCols r t row i k j s
        = some (true, s.write (rowText r s.m_separator (row.drop j))) := by
  intro k
  induction k with
  | zero =>
    intro j s h _
    have hj : row.drop j = [] := List.drop_eq_nil_of_le (by omega)
    simp [Logger.logGridCols, hj, rowText, Logger.write_empty]
  | succ k ih =>
    intro j s h hno
    have hlt : j < row.length := by omega
    rw [List.drop_eq_getElem_cons hlt]
    simp only [Logger.logGridCols, List.getElem?_eq_getElem hlt, hno j (Nat.le_refl j) hlt]
    rw [ih (j + 1) _ (by omega) (fun j1 h1 h2 => hno j1 (by omega) h2)]
    simp [rowText, Logger.write_write, String.append_assoc]

theorem logGridCols_throws {D : Type} (r : Render D) (t : Target) (row : List D) (i : Nat) :
    ∀ (k j : Nat) (s : Logger), j + k = row.length →
      (∃ j1, j ≤ j1 ∧ j1 < row.length ∧ t.throwsAt i j1 ≠ none) →
      ∃ u, Logger.logGridCols r t row i k j s = some (false, s.write u) := by
  intro k
  induction k with
  | zero =>
    intro j s h hex
    obtain ⟨j1, h1, h2, _⟩ := hex
    omega
  | succ k ih =>
    intro j s h hex
    have hlt : j < row.length := by omega
    simp only [Logger.logGridCols, List.getElem?_eq_getElem hlt]
    cases hthrow : t.throwsAt i j with
    | some part => exact ⟨part, rfl⟩
    | none =>
      obtain ⟨j1, h1, h2, h3⟩ := hex
      have hne : j1 ≠ j := fun he => h3 (by rw [he]; exact hthrow)
      obtain ⟨u, hu⟩ := ih (j + 1) ((s.write (r.ofDouble row[j])).write s.m_separator)
        (by omega) ⟨j1, by omega, h2, h3⟩
      refine ⟨r.ofDouble row[j] ++ s.m_separator ++ u, ?_⟩
      rw [hu]
      simp only [Logger.write_write, String.append_assoc]

theorem logGridRows_complete {D : Type} (r : Render D) (t : Target) (d : List (List D))
    (cols : Int) (hcols : ∀ row ∈ d, row.length = cols.toNat) :
    ∀ (k i : Nat) (s : Logger), i + k = d.length →
      (∀ i1 j1, i ≤ i1 → i1 < d.length → j1 < cols.toNat → t.throwsAt i1 j1 = none) →
      Logger.logGridRows r t d cols k i s
        = some (true, s.write (gridText r s.m_separator (lineEnd s) (d.drop i))) := by
  intro k
  induction k with
  | zero =>
    intro i s h _
    have hi : d.drop i = [] := List.drop_eq_nil_of_le (by omega)
    simp [Logger.logGridRows, hi, gridText, Logger.write_empty]
  | succ k ih =>
    intro i s h hno
    have hlt : i < d.length := by omega
    have hlen : (d[i]).length = cols.toNat := hcols _ (List.getElem_mem hlt)
    have hrow : 0 + cols.toNat = (d[i]).length := by omega
    have hc := logGridCols_complete r t (d[i]) i cols.toNat 0 s hrow
      (fun j1 _ h2 => hno i j1 (Nat.le_refl i) hlt (by omega))
    rw [List.drop_eq_getElem_cons hlt]
    simp only [Logger.logGridRows, List.getElem?_eq_getElem hlt, hc, List.drop_zero, if_true]
    rw [ih (i + 1) _ (by omega) (fun i1 j1 h1 h2 h3 => hno i1 j1 (by omega) h2 h3)]
    cases hendl : s.m_endl <;>
      simp [gridText, lineEnd, hendl, Logger.write_write, String.append_assoc]

theorem logGridRows_throws {D : Type} (r : Render D) (t : Target) (d : List (List D))
    (cols : Int) (hcols : ∀ row ∈ d, row.length = cols.toNat) :
    ∀ (k i : Nat) (s : Logger), i + k = d.length →
      (∃ i1 j1, i ≤ i1 ∧ i1 < d.length ∧ j1 < cols.toNat ∧ t.throwsAt i1 j1 ≠ none) →
      ∃ u, Logger.logGridRows r t d cols k i s = some (false, s.write u) := by
  intro k
  induction k with
  | zero =>
    intro i s h hex
    obtain ⟨i1, j1, h1, h2, _⟩ := hex
    omega
  | succ k ih =>
    intro i s h hex
    have hlt : i < d.length := by omega
    have hlen : (d[i]).length = cols.toNat := hcols _ (List.getElem_mem hlt)
    have hrow : 0 + cols.toNat = (d[i]).length := by omega
    by_cases hhere : ∃ j1, j1 < cols.toNat ∧ t.throwsAt i j1 ≠ none
    · obtain ⟨j1, h1, h2⟩ := hhere
      obtain ⟨u, hu⟩ := logGridCols_throws r t (d[i]) i cols.toNat 0 s hrow
        ⟨j1, Nat.zero_le j1, by omega, h2⟩
      exact ⟨u, by
        simp only [Logger.logGridRows, List.getElem?_eq_getElem hlt, hu, Bool.false_eq_true,
          if_false]⟩
    · have hnone : ∀ j1, 0 ≤ j1 → j1 < (d[i]).length → t.throwsAt i j1 = none := by
        intro j1 _ h2
        by_contra hc
        exact hhere ⟨j1, by omega, hc⟩
      have hc := logGridCols_complete r t (d[i]) i cols.toNat 0 s hrow hnone
      obtain ⟨i1, j1, h1, h2, h3, h4⟩ := hex
      have hne : i1 ≠ i := fun he => hhere ⟨j1, h3, by rw [← he]; exact h4⟩
      obtain ⟨u, hu⟩ := ih (i + 1)
        (if (s.write (rowText r s.m_separator (d[i]))).m_endl = true
          then (s.write (rowText r s.m_separator (d[i]))).write Cstd.endl
          else s.write (rowText r s.m_separator (d[i])))
        (by omega) ⟨i1, j1, by omega, h2, h3, h4⟩
      simp only [Logger.logGridRows, List.getElem?_eq_getElem hlt, hc, List.drop_zero, if_true,
        hu]
      cases hendl : s.m_endl
      · exact ⟨rowText r s.m_separator (d[i]) ++ u, by
          simp [hendl, Logger.write_write]⟩
      · exact ⟨rowText r s.m_separator (d[i]) ++ Cstd.endl ++ u, by
          simp [hendl, Logger.write_write, String.append_assoc]⟩

theorem abs_defined (n : Int) (hmin : n ≠ -2147483648) :
    Cstd.abs n = some (n.natAbs : Int) := by
  unfold Cstd.abs Cstd.INT_MIN
  rw [if_neg hmin]
  congr 1
  split <;> omega

theorem printTimesLoop_writes (str : String) (separator : Bool) :
    ∀ (k i : Nat) (s : Logger), ∃ t, Logger.printTimesLoop str separator k i s = s.write t := by
  intro k
  induction k with
  | zero => intro i s; exact ⟨"", by simp [Logger.printTimesLoop, Logger.write_empty]⟩
  | succ k ih =>
    intro i s
    by_cases h : i ≠ 0 ∧ separator = true
    · obtain ⟨t, ht⟩ := ih (i + 1) ((s.write s.m_separator).write str)
      refine ⟨ s.m_separator ++ str ++ t, ?_⟩
      simp only [Logger.printTimesLoop, if_pos h]
      rw [ht]
      simp only [Logger.write_write, String.append_assoc]
    · obtain ⟨t, ht⟩ := ih (i + 1) (s.write str)
      refine ⟨str ++ t, ?_⟩
      simp only [Logger.printTimesLoop, if_neg h]
      rw [ht]
      simp only [Logger.write_write]

theorem printTimes_writes (s s1 : Logger) (times : Int) (str : String) (separator : Bool)
    (h : s.printTimes times str separator = some s1) : ∃ t, s1 = s.write t := by
  unfold Logger.printTimes at h
  by_cases hout : s.m_output = true
  · rw [if_pos hout] at h
    cases habs : Cstd.abs times with
    | none => simp [habs] at h
    | some a =>
      simp only [habs] at h
      by_cases hpos : a > 0
      · rw [if_pos hpos] at h
        obtain ⟨t, ht⟩ := printTimesLoop_writes str separator a.toNat 0 (s.write s.m_prefix)
        simp only [ht, Option.some.injEq] at h
        cases hendl : s.m_endl
        · exact ⟨ s.m_prefix ++ t ++ s.m_postfix, by
            rw [← h]; simp [hendl, Logger.write_write, String.append_assoc]⟩
        · exact ⟨ s.m_prefix ++ t ++ s.m_postfix ++ Cstd.endl, by
            rw [← h]; simp [hendl, Logger.write_write, String.append_assoc]⟩
      · rw [if_neg hpos, Option.some.injEq] at h
        exact ⟨"", by rw [Logger.write_empty, h]⟩
  · rw [if_neg hout, Option.some.injEq] at h
    exact ⟨"", by rw [Logger.write_empty, h]⟩

theorem printTimes_defined (s : Logger) (times : Int) (str : String) (separator : Bool)
    (hmin : times ≠ -2147483648) : ∃ s1, s.printTimes times str separator = some s1 := by
  unfold Logger.printTimes
  rw [abs_defined times hmin]
  by_cases hout : s.m_output = true
  · rw [if_pos hout]
    by_cases hpos : (times.natAbs : Int) > 0
    · simp only [if_pos hpos]
      exact ⟨_, rfl⟩
    · simp only [if_neg hpos]
      exact ⟨_, rfl⟩
  · rw [if_neg hout]
    exact ⟨_, rfl⟩

/-- C11 fails for a negative count: `printTimes(-3, "x")` with output enabled
writes the prefix, the token three times, the postfix and a line terminator. -/
theorem printTimes_negative_count_repeats :
    Logger.printTimes Logger.decorated (-3) "x" false
      = some { Logger.decorated with m_stream := "P-xxx-Q\n" } := by
  decide

/-- C11 as amended: for every state and every token, `printTimes` with the
count 0 gives back the logger as it was (nothing written, not even prefix,
postfix or line terminator), and for every count, negative ones included, the
call gives a state (but for `INT_MIN`, where `abs` is undefined) in which the
success count is unchanged. -/
theorem printTimes_zero_count (s : Logger) (str : String) (separator : Bool) :
    s.printTimes 0 str separator = some s
    ∧ (∀ times : Int, times ≠ -2147483648 →
        ∃ s1, s.printTimes times str separator = some s1 ∧ s1.m_nrLogs = s.m_nrLogs)
    ∧ (∀ (times : Int) (s1 : Logger), s.printTimes times str separator = some s1 →
        s1.m_nrLogs = s.m_nrLogs) := by
  have hcount : ∀ (times : Int) (s1 : Logger), s.printTimes times str separator = some s1 →
      s1.m_nrLogs = s.m_nrLogs := by
    intro times s1 h
    obtain ⟨t, ht⟩ := printTimes_writes s s1 times str separator h
    rw [ht]
    rfl
  refine ⟨?_, fun times hmin => ?_, hcount⟩
  · cases hout : s.m_output <;> simp [Logger.printTimes, Cstd.abs, Cstd.INT_MIN, hout]
  · obtain ⟨s1, hs1⟩ := printTimes_defined s times str separator hmin
    exact ⟨s1, hs1, hcount times s1 hs1⟩

/-! ## Blank lines -/

theorem newLineLoop_eq : ∀ (k : Nat) (s : Logger),
    Logger.newLineLoop k s = s.write (String.mk (List.replicate k '\n')) := by
  intro k
  induction k with
  | zero =>
    intro s
    have h : String.mk (List.replicate 0 '\n') = "" := rfl
    simp only [Logger.newLineLoop, h, Logger.write_empty]
  | succ k ih =>
    intro s
    have h : Cstd.endl ++ String.mk (List.replicate k '\n')
        = String.mk (List.replicate (k + 1) '\n') := rfl
    simp only [Logger.newLineLoop, ih, Logger.write_write, h]

theorem newLine_writes (s s1 : Logger) (nr : Int) (h : s.newLine nr = some s1) :
    ∃ t, s1 = s.write t := by
  unfold Logger.newLine at h
  by_cases hout : s.m_output = true
  · rw [if_pos hout] at h
    cases habs : Cstd.abs nr with
    | none => simp [habs] at h
    | some a =>
      simp only [habs, Option.some.injEq] at h
      exact ⟨_, by rw [← h, newLineLoop_eq]⟩
  · rw [if_neg hout, Option.some.injEq] at h
    exact ⟨"", by rw [Logger.write_empty, h]⟩

theorem newLine_defined (s : Logger) (nr : Int) (hmin : nr ≠ -2147483648) :
    ∃ s1, s.newLine nr = some s1 := by
  unfold Logger.newLine
  rw [abs_defined nr hmin]
  by_cases hout : s.m_output = true
  · rw [if_pos hout]
    exact ⟨_, rfl⟩
  · rw [if_neg hout]
    exact ⟨_, rfl⟩

/-! ## Configuration -/

/-- C15: after `resetNrOfLogs` the next `getNrOfLogs` returns 0, whatever the
state was, and `resetNrOfLogs` changes no other member and writes nothing. -/
theorem resetNrOfLogs_then_zero (s : Logger) :
    s.resetNrOfLogs.getNrOfLogs = 0
    ∧ Logger.m_prefix s.resetNrOfLogs = s.m_prefix
    ∧ Logger.m_postfix s.resetNrOfLogs = s.m_postfix
    ∧ s.resetNrOfLogs.m_separator = s.m_separator
    ∧ s.resetNrOfLogs.m_output = s.m_output
    ∧ s.resetNrOfLogs.m_endl = s.m_endl
    ∧ s.resetNrOfLogs.m_stream = s.m_stream := by
  refine ⟨by simp [Logger.resetNrOfLogs, Logger.getNrOfLogs, Cstd.wrapInt], ?_⟩
  simp [Logger.resetNrOfLogs]

theorem logX_two_ints {D : Type} (r : Render D) (s : Logger) (a b : Int)
    (hout : s.m_output = true) :
    Logger.logX r s "ii" [VaArg.int a, VaArg.int b]
      = some (2, { s with
          m_stream := s.m_stream ++ s.m_prefix ++ toString a ++ s.m_separator ++ toString b
            ++ s.m_postfix ++ (if s.m_endl = true then "\n" else ""),
          m_nrLogs := (s.m_nrLogs + 1) % 4294967296 }) := by
  have hd : ("ii" : String).data = ['i', 'i'] := rfl
  have hi : ('i' : Char) ≠ Cstd.NUL := by decide
  have hb : ¬ ('i' : Char) = 'b' := by decide
  simp only [Logger.logX, hout, if_true, hd, Logger.logXLoop, if_neg hi, Logger.logXSwitch,
    if_neg hb, Logger.va_arg_int, Option.map_some']
  cases hendl : s.m_endl <;>
    simp [Logger.write, Logger.incNrLogs, hendl, hout, String.append_assoc, Cstd.endl,
      Cstd.UINT_SIZE]

theorem log_int_enabled {D : Type} (r : Render D) (s : Logger) (i : Int)
    (hout : s.m_output = true) :
    Logger.log_int r s i
      = some (true, { s with
          m_stream := s.m_stream ++ s.m_prefix ++ toString i ++ s.m_postfix
            ++ (if s.m_endl = true then "\n" else ""),
          m_nrLogs := (s.m_nrLogs + 1) % 4294967296 }) := by
  have h := logX_one_tag r s 'i' (VaArg.int i) (toString i) hout
    (by decide) (by simp [Logger.logXSwitch, Logger.va_arg_int])
  rw [show Logger.log_int r s i
    = Logger.toBool (Logger.logX r s (String.mk ['i']) [VaArg.int i]) from rfl, h]
  rfl

/-- C16: right after a setter the matching getter returns the value set, no
other member has changed (so nothing is written and the success count is the
same), and the next emission uses the value: `log` of an int writes the new
prefix or postfix, follows the new output and line ending flags, and `logX` of
two ints writes the new separator between them. -/
theorem setters_take_effect {D : Type} (r : Render D) (s : Logger) :
    (∀ x : String, (s.setPrefix x).getPrefix = x ∧ s.setPrefix x = { s with m_prefix := x })
    ∧ (∀ x : String, (s.setPostfix x).getPostfix = x
        ∧ s.setPostfix x = { s with m_postfix := x })
    ∧ (∀ x : String, (s.setSeparator x).getSeparator = x
        ∧ s.setSeparator x = { s with m_separator := x })
    ∧ (∀ x : Bool, (s.setOutput x).output = x ∧ s.setOutput x = { s with m_output := x })
    ∧ (∀ x : Bool, (s.setEndline x).endl = x ∧ s.setEndline x = { s with m_endl := x })
    ∧ (∀ (x : String) (i : Int), s.m_output = true →
        Logger.log_int r (s.setPrefix x) i
          = some (true, { s with
              m_prefix := x,
              m_stream := s.m_stream ++ x ++ toString i ++ s.m_postfix
                ++ (if s.m_endl = true then "\n" else ""),
              m_nrLogs := (s.m_nrLogs + 1) % 4294967296 }))
    ∧ (∀ (x : String) (i : Int), s.m_output = true →
        Logger.log_int r (s.setPostfix x) i
          = some (true, { s with
              m_postfix := x,
              m_stream := s.m_stream ++ s.m_prefix ++ toString i ++ x
                ++ (if s.m_endl = true then "\n" else ""),
              m_nrLogs := (s.m_nrLogs + 1) % 4294967296 }))
    ∧ (∀ (x : String) (a b : Int), s.m_output = true →
        Logger.logX r (s.setSeparator x) "ii" [VaArg.int a, VaArg.int b]
          = some (2, { s with
              m_separator := x,
              m_stream := s.m_stream ++ s.m_prefix ++ toString a ++ x ++ toString b
                ++ s.m_postfix ++ (if s.m_endl = true then "\n" else ""),
              m_nrLogs := (s.m_nrLogs + 1) % 4294967296 }))
    ∧ (∀ i : Int,
        Logger.log_int r (s.setOutput false) i = some (false, { s with m_output := false })
        ∧ Logger.log_int r (s.setOutput true) i
          = some (true, { s with
              m_output := true,
              m_stream := s.m_stream ++ s.m_prefix ++ toString i ++ s.m_postfix
                ++ (if s.m_endl = true then "\n" else ""),
              m_nrLogs := (s.m_nrLogs + 1) % 4294967296 }))
    ∧ (∀ (x : Bool) (i : Int), s.m_output = true →
        Logger.log_int r (s.setEndline x) i
          = some (true, { s with
              m_endl := x,
              m_stream := s.m_stream ++ s.m_prefix ++ toString i ++ s.m_postfix
                ++ (if x = true then "\n" else ""),
              m_nrLogs := (s.m_nrLogs + 1) % 4294967296 })) := by
  refine ⟨fun x => ⟨rfl, rfl⟩, fun x => ⟨rfl, rfl⟩, fun x => ⟨rfl, rfl⟩, fun x => ⟨rfl, rfl⟩,
    fun x => ⟨rfl, rfl⟩, ?_, ?_, ?_, ?_, ?_⟩
  · intro x i hout
    rw [log_int_enabled r (s.setPrefix x) i hout]
    rfl
  · intro x i hout
    rw [log_int_enabled r (s.setPostfix x) i hout]
    rfl
  · intro x a b hout
    rw [logX_two_ints r (s.setSeparator x) a b hout]
    rfl
  · intro i
    refine ⟨by simp [Logger.log_int, Logger.toBool, Logger.logX, Logger.setOutput], ?_⟩
    rw [log_int_enabled r (s.setOutput true) i rfl]
    rfl
  · intro x i hout
    rw [log_int_enabled r (s.setEndline x) i hout]
    rfl

/-- C16 at the decoration example: after `setPrefix("[")` the next `log(7)`
writes `[7-Q` and a line terminator. -/
theorem setters_take_effect_witness :
    Logger.log_int Render.whole (Logger.decorated.setPrefix "[") 7
      = some (true, { Logger.decorated with
          m_prefix := "[", m_stream := "[7-Q\n", m_nrLogs := 1 }) :=
  (setters_take_effect Render.whole Logger.decorated).2.2.2.2.2.1 "[" 7 rfl

/-- C17: `clearPrefix` is idempotent: after one call and after two calls in a
row `getPrefix` returns the empty string and the state is the same; likewise
`clearPostfix` gives the empty postfix and `resetSeparator` the separator of
one space. -/
theorem clearPrefix_idempotent (s : Logger) :
    (s.clearPrefix.getPrefix = "" ∧ s.clearPrefix.clearPrefix.getPrefix = ""
      ∧ s.clearPrefix.clearPrefix = s.clearPrefix)
    ∧ (s.clearPostfix.getPostfix = "" ∧ s.clearPostfix.clearPostfix.getPostfix = ""
      ∧ s.clearPostfix.clearPostfix = s.clearPostfix)
    ∧ (s.resetSeparator.getSeparator = " " ∧ s.resetSeparator.resetSeparator.getSeparator = " "
      ∧ s.resetSeparator.resetSeparator = s.resetSeparator) :=
  ⟨⟨rfl, rfl, rfl⟩, ⟨rfl, rfl, rfl⟩, ⟨rfl, rfl, rfl⟩⟩

/-! ## Ownership of the target stream -/

theorem deleteUnlessCout_keeps_streams (p : Process)
    (h : ∀ r : StreamRef, DeleteOperand.stream r ∉ p.deleted) :
    ∀ r : StreamRef, DeleteOperand.stream r ∉ p.deleteUnlessCout.deleted := by
  intro r
  unfold Process.deleteUnlessCout
  split
  · simp [h r]
  · exact h r

/-- The stream objects themselves are never the operand of a `delete`: after
any sequence of `setStream` calls, and after the destructor, no stream is
among the operands if none was before. -/
theorem setStreams_keeps_streams (streams : List StreamRef) :
    ∀ p : Process, (∀ r : StreamRef, DeleteOperand.stream r ∉ p.deleted) →
      ∀ r : StreamRef, DeleteOperand.stream r ∉ (p.setStreams streams).destructor.deleted := by
  induction streams with
  | nil =>
    intro p h
    exact deleteUnlessCout_keeps_streams p h
  | cons stream rest ih =>
    intro p h
    exact ih (p.setStream stream) (deleteUnlessCout_keeps_streams p h)

/-- C18, at a failing input: with a stream of the caller as target, the next
`setStream`, and likewise the destructor, runs `delete(&m_stream)`, whose
operand is the static pointer variable, which the logger never allocated. -/
theorem setStream_deletes_pointer_variable :
    ((Process.start Logger.decorated).setStreams
        [StreamRef.caller 1, StreamRef.caller 2]).deleted
      = [DeleteOperand.m_stream_variable]
    ∧ ((Process.start Logger.decorated).setStream (StreamRef.caller 1)).destructor.deleted
      = [DeleteOperand.m_stream_variable] := by
  decide

/-! ## The success count under every operation -/

theorem logXLoop_some {D : Type} (r : Render D) (d : List Char) :
    ∀ (vl : List (VaArg D)) (i : Nat) (s : Logger) (j : Nat) (s1 : Logger),
      Logger.logXLoop r d i vl s = some (j, s1) →
        j = i + tagCount d ∧ ∃ t, s1 = s.write t := by
  induction d with
  | nil =>
    intro vl i s j s1 h
    simp only [Logger.logXLoop, Option.some.injEq, Prod.mk.injEq] at h
    exact ⟨by simp [tagCount, h.1], "", by rw [Logger.write_empty, h.2]⟩
  | cons ch rest ih =>
    intro vl i s j s1 h
    by_cases hch : ch = Cstd.NUL
    · simp only [Logger.logXLoop, if_pos hch, Option.some.injEq, Prod.mk.injEq] at h
      exact ⟨by simp [tagCount, hch, h.1], "", by rw [Logger.write_empty, h.2]⟩
    · have hcount : tagCount (ch :: rest) = tagCount rest + 1 := by
        simp [tagCount, List.takeWhile_cons, hch]
      simp only [Logger.logXLoop, if_neg hch] at h
      cases hsw : Logger.logXSwitch r ch vl with
      | none => simp [hsw] at h
      | some q =>
        obtain ⟨t, vl1⟩ := q
        simp only [hsw] at h
        obtain ⟨hj, u, hu⟩ := ih vl1 (i + 1) _ j s1 h
        refine ⟨by omega, ?_⟩
        by_cases hi : i = 0
        · exact ⟨ s.m_prefix ++ t ++ u, by
            rw [hu, if_pos hi, Logger.write_write, Logger.write_write, String.append_assoc]⟩
        · exact ⟨ s.m_separator ++ t ++ u, by
            rw [hu, if_neg hi, Logger.write_write, Logger.write_write, String.append_assoc]⟩

theorem logX_count {D : Type} (r : Render D) (s : Logger) (szTypes : String)
    (vl : List (VaArg D)) (n : Int) (s1 : Logger)
    (h : Logger.logX r s szTypes vl = some (n, s1)) :
    s1.m_nrLogs = s.m_nrLogs
    ∨ (s.m_output = true ∧ tagCount szTypes.data ≠ 0
        ∧ s1.m_nrLogs = (s.m_nrLogs + 1) % 4294967296) := by
  cases hout : s.m_output with
  | false =>
    simp only [Logger.logX, hout, Bool.false_eq_true, if_false, Option.some.injEq,
      Prod.mk.injEq] at h
    exact Or.inl (by rw [← h.2])
  | true =>
    simp only [Logger.logX, hout, if_true] at h
    cases hloop : Logger.logXLoop r szTypes.data 0 vl s with
    | none => simp [hloop] at h
    | some q =>
      obtain ⟨j, s2⟩ := q
      obtain ⟨hj, t, ht⟩ := logXLoop_some r szTypes.data vl 0 s j s2 hloop
      simp only [hloop] at h
      by_cases hz : j = 0
      · simp only [hz, ne_eq, not_true_eq_false, if_false, Option.some.injEq,
          Prod.mk.injEq] at h
        exact Or.inl (by rw [← h.2, ht]; rfl)
      · simp only [ne_eq, hz, not_false_eq_true, if_true, Option.some.injEq,
          Prod.mk.injEq] at h
        refine Or.inr ⟨rfl, by omega, ?_⟩
        rw [← h.2, ht]
        cases hendl : s.m_endl <;> simp [Logger.incNrLogs, hendl, Cstd.UINT_SIZE]

theorem logGridCols_some {D : Type} (r : Render D) (t : Target) (row : List D) (i : Nat) :
    ∀ (k j : Nat) (s : Logger) (b : Bool) (s1 : Logger),
      Logger.logGridCols r t row i k j s = some (b, s1) → ∃ u, s1 = s.write u := by
  intro k
  induction k with
  | zero =>
    intro j s b s1 h
    simp only [Logger.logGridCols, Option.some.injEq, Prod.mk.injEq] at h
    exact ⟨"", by rw [Logger.write_empty, h.2]⟩
  | succ k ih =>
    intro j s b s1 h
    simp only [Logger.logGridCols] at h
    cases hx : row[j]? with
    | none => simp [hx] at h
    | some x =>
      simp only [hx] at h
      cases hthrow : t.throwsAt i j with
      | some part =>
        simp only [hthrow, Option.some.injEq, Prod.mk.injEq] at h
        exact ⟨part, by rw [← h.2]⟩
      | none =>
        simp only [hthrow] at h
        obtain ⟨u, hu⟩ := ih (j + 1) _ b s1 h
        exact ⟨r.ofDouble x ++ s.m_separator ++ u, by
          rw [hu, Logger.write_write, Logger.write_write, String.append_assoc]⟩

theorem logGridRows_some {D : Type} (r : Render D) (t : Target) (d : List (List D))
    (cols : Int) :
    ∀ (k i : Nat) (s : Logger) (b : Bool) (s1 : Logger),
      Logger.logGridRows r t d cols k i s = some (b, s1) → ∃ u, s1 = s.write u := by
  intro k
  induction k with
  | zero =>
    intro i s b s1 h
    simp only [Logger.logGridRows, Option.some.injEq, Prod.mk.injEq] at h
    exact ⟨"", by rw [Logger.write_empty, h.2]⟩
  | succ k ih =>
    intro i s b s1 h
    simp only [Logger.logGridRows] at h
    cases hrow : d[i]? with
    | none => simp [hrow] at h
    | some row =>
      simp only [hrow] at h
      cases hc : Logger.logGridCols r t row i cols.toNat 0 s with
      | none => simp [hc] at h
      | some q =>
        obtain ⟨b2, s2⟩ := q
        simp only [hc] at h
        obtain ⟨u, hu⟩ := logGridCols_some r t row i cols.toNat 0 s b2 s2 hc
        subst hu
        cases b2 with
        | false =>
          simp only [Bool.false_eq_true, if_false, Option.some.injEq, Prod.mk.injEq] at h
          exact ⟨u, by rw [← h.2]⟩
        | true =>
          simp only [if_true] at h
          obtain ⟨v, hv⟩ := ih (i + 1) _ b s1 h
          by_cases hendl : s.m_endl = true
          · exact ⟨u ++ Cstd.endl ++ v, by
              rw [hv]; simp [hendl, Logger.write_write, String.append_assoc]⟩
          · exact ⟨u ++ v, by
              rw [hv]; simp [hendl, Logger.write_write]⟩

theorem log_grid_count {D : Type} (r : Render D) (t : Target) (s : Logger)
    (d : Option (List (List D))) (rows cols : Int) (b : Bool) (s1 : Logger)
    (h : Logger.log_grid r t s d rows cols = some (b, s1)) :
    s1.m_nrLogs = s.m_nrLogs
    ∨ (s.m_output = true ∧ d.isSome = true
        ∧ s1.m_nrLogs = (s.m_nrLogs + 1) % 4294967296) := by
  cases d with
  | none =>
    simp only [Logger.log_grid, Option.some.injEq, Prod.mk.injEq] at h
    exact Or.inl (by rw [← h.2])
  | some g =>
    cases hout : s.m_output with
    | false =>
      simp only [Logger.log_grid, hout, Bool.false_eq_true, if_false, Option.some.injEq,
        Prod.mk.injEq] at h
      exact Or.inl (by rw [← h.2])
    | true =>
      simp only [Logger.log_grid, hout, if_true] at h
      cases hrows : Logger.logGridRows r t g cols rows.toNat 0 s with
      | none => simp [hrows] at h
      | some q =>
        obtain ⟨b2, s2⟩ := q
        obtain ⟨u, hu⟩ := logGridRows_some r t g cols rows.toNat 0 s b2 s2 hrows
        simp only [hrows] at h
        cases b2 with
        | false =>
          simp only [Bool.false_eq_true, if_false, Option.some.injEq, Prod.mk.injEq] at h
          exact Or.inl (by rw [← h.2, hu]; rfl)
        | true =>
          simp only [if_true, Option.some.injEq, Prod.mk.injEq] at h
          refine Or.inr ⟨rfl, rfl, ?_⟩
          rw [← h.2, hu]
          simp [Logger.incNrLogs, Cstd.UINT_SIZE]

theorem onResult_some (p p1 : Process) (res : Option Logger)
    (h : Op.onResult p res = some p1) : res = some p1.statics := by
  cases res with
  | none => simp [Op.onResult] at h
  | some s1 =>
    simp only [Op.onResult, Option.map_some', Option.some.injEq] at h
    rw [← h]

theorem setStream_statics (p : Process) (stream : StreamRef) :
    (p.setStream stream).statics = p.statics := by
  unfold Process.setStream Process.deleteUnlessCout
  split <;> rfl

theorem dropResult_some {α : Type} (p p1 : Process) (res : Option (α × Logger))
    (h : Op.dropResult p res = some p1) :
    ∃ a s1, res = some (a, s1) ∧ p1.statics = s1 := by
  cases res with
  | none => simp [Op.dropResult] at h
  | some q =>
    simp only [Op.dropResult, Option.map_some', Option.some.injEq] at h
    exact ⟨q.1, q.2, rfl, by rw [← h]⟩

theorem toBool_some (res : Option (Int × Logger)) (b : Bool) (s1 : Logger)
    (h : Logger.toBool res = some (b, s1)) : ∃ n, res = some (n, s1) := by
  cases res with
  | none => simp [Logger.toBool] at h
  | some q =>
    simp only [Logger.toBool, Option.map_some', Option.some.injEq, Prod.mk.injEq] at h
    exact ⟨q.1, by rw [← h.2]⟩

theorem run_count {D : Type} (r : Render D) (op : Op D) (p p1 : Process)
    (h : Op.run r op p = some p1) :
    p1.statics.m_nrLogs = p.statics.m_nrLogs
    ∨ (p.statics.m_output = true ∧ op.reachesIncrement = true
        ∧ p1.statics.m_nrLogs = (p.statics.m_nrLogs + 1) % 4294967296)
    ∨ (op = Op.resetNrOfLogs ∧ p1.statics.m_nrLogs = 0) := by
  cases op with
  | newLine nr =>
    obtain ⟨t, ht⟩ := newLine_writes p.statics p1.statics nr (onResult_some p p1 _ h)
    exact Or.inl (by rw [ht]; rfl)
  | printTimes times str separator =>
    obtain ⟨t, ht⟩ := printTimes_writes p.statics p1.statics times str separator
      (onResult_some p p1 _ h)
    exact Or.inl (by rw [ht]; rfl)
  | log_string str =>
    obtain ⟨b, s1, hres, hs1⟩ := dropResult_some p p1 _ h
    obtain ⟨n, hn⟩ := toBool_some _ b s1 hres
    rcases logX_count r p.statics _ _ n s1 hn with hc | ⟨ho, _, hc⟩
    · exact Or.inl (by rw [hs1, hc])
    · exact Or.inr (Or.inl ⟨ho, rfl, by rw [hs1, hc]⟩)
  | log_int i =>
    obtain ⟨b, s1, hres, hs1⟩ := dropResult_some p p1 _ h
    obtain ⟨n, hn⟩ := toBool_some _ b s1 hres
    rcases logX_count r p.statics _ _ n s1 hn with hc | ⟨ho, _, hc⟩
    · exact Or.inl (by rw [hs1, hc])
    · exact Or.inr (Or.inl ⟨ho, rfl, by rw [hs1, hc]⟩)
  | log_double d =>
    obtain ⟨b, s1, hres, hs1⟩ := dropResult_some p p1 _ h
    obtain ⟨n, hn⟩ := toBool_some _ b s1 hres
    rcases logX_count r p.statics _ _ n s1 hn with hc | ⟨ho, _, hc⟩
    · exact Or.inl (by rw [hs1, hc])
    · exact Or.inr (Or.inl ⟨ho, rfl, by rw [hs1, hc]⟩)
  | log_grid t d rows cols =>
    obtain ⟨b, s1, hres, hs1⟩ := dropResult_some p p1 _ h
    rcases log_grid_count r t p.statics d rows cols b s1 hres with hc | ⟨ho, hd, hc⟩
    · exact Or.inl (by rw [hs1, hc])
    · exact Or.inr (Or.inl ⟨ho, hd, by rw [hs1, hc]⟩)
  | logX szTypes vl =>
    obtain ⟨n, s1, hres, hs1⟩ := dropResult_some p p1 _ h
    rcases logX_count r p.statics szTypes vl n s1 hres with hc | ⟨ho, ht, hc⟩
    · exact Or.inl (by rw [hs1, hc])
    · exact Or.inr (Or.inl ⟨ho, by simp [Op.reachesIncrement, ht], by rw [hs1, hc]⟩)
  | setStream stream =>
    simp only [Op.run, Option.some.injEq] at h
    exact Or.inl (by rw [← h, setStream_statics])
  | resetNrOfLogs =>
    simp only [Op.run, Op.onStatics, Option.some.injEq] at h
    exact Or.inr (Or.inr ⟨rfl, by rw [← h]; rfl⟩)
  | setPrefix _ | setPostfix _ | setSeparator _ | setOutput _ | setEndline _
  | clearPrefix | clearPostfix | resetSeparator =>
    simp only [Op.run, Op.onStatics, Option.some.injEq] at h
    exact Or.inl (by rw [← h]; rfl)
  | getNrOfLogs | getPrefix | getPostfix | getSeparator | output | endl =>
    simp only [Op.run, Option.some.injEq] at h
    exact Or.inl (by rw [← h])

theorem log_defined {D : Type} (r : Render D) (s : Logger) :
    (∀ str : String, ∃ q, Logger.log_string r s str = some q)
    ∧ (∀ i : Int, ∃ q, Logger.log_int r s i = some q)
    ∧ (∀ d : D, ∃ q, Logger.log_double r s d = some q) := by
  have h := logX_one_tag r s
  cases hout : s.m_output with
  | false =>
    refine ⟨fun str => ⟨(false, s), ?_⟩, fun i => ⟨(false, s), ?_⟩, fun d => ⟨(false, s), ?_⟩⟩
    · simp [Logger.log_string, Logger.toBool, Logger.logX, hout]
    · simp [Logger.log_int, Logger.toBool, Logger.logX, hout]
    · simp [Logger.log_double, Logger.toBool, Logger.logX, hout]
  | true =>
    refine ⟨fun str => ?_, fun i => ?_, fun d => ?_⟩
    · have h1 := h 's' (VaArg.str (some (Cstd.c_str str))) (Cstd.c_str str) hout (by decide)
        (by simp [Logger.logXSwitch, Logger.va_arg_str])
      rw [show Logger.log_string r s str
        = Logger.toBool (Logger.logX r s (String.mk ['s']) [VaArg.str (some (Cstd.c_str str))])
        from rfl, h1]
      exact ⟨_, rfl⟩
    · have h1 := h 'i' (VaArg.int i) (toString i) hout (by decide)
        (by simp [Logger.logXSwitch, Logger.va_arg_int])
      rw [show Logger.log_int r s i
        = Logger.toBool (Logger.logX r s (String.mk ['i']) [VaArg.int i]) from rfl, h1]
      exact ⟨_, rfl⟩
    · have h1 := h 'd' (VaArg.double d) (r.ofFloat d) hout (by decide)
        (by simp [Logger.logXSwitch, Logger.va_arg_double])
      rw [show Logger.log_double r s d
        = Logger.toBool (Logger.logX r s (String.mk ['d']) [VaArg.double d]) from rfl, h1]
      exact ⟨_, rfl⟩

theorem logX_defined {D : Type} (r : Render D) (s : Logger) (szTypes : String)
    (vl : List (VaArg D)) (h : argsMatch szTypes.data vl = true) :
    ∃ q, Logger.logX r s szTypes vl = some q := by
  obtain ⟨t, ht⟩ := logXLoop_of_argsMatch r szTypes.data vl 0 s h
  cases hout : s.m_output with
  | false => exact ⟨(0, s), by simp [Logger.logX, hout]⟩
  | true =>
    simp only [Logger.logX, hout, if_true, ht]
    by_cases hz : 0 + tagCount szTypes.data ≠ 0
    · rw [if_pos hz]
      exact ⟨_, rfl⟩
    · rw [if_neg hz]
      exact ⟨_, rfl⟩

theorem log_grid_defined {D : Type} (r : Render D) (t : Target) (s : Logger)
    (g : List (List D)) (rows cols : Int) (hrows : (g.length : Int) = rows)
    (hcols : ∀ row ∈ g, (row.length : Int) = cols) :
    ∃ q, Logger.log_grid r t s (some g) rows cols = some q := by
  have hr : 0 + rows.toNat = g.length := by omega
  have hc : ∀ row ∈ g, row.length = cols.toNat := by
    intro row hrow
    have := hcols row hrow
    omega
  cases hout : s.m_output with
  | false => exact ⟨(false, s), by simp [Logger.log_grid, hout]⟩
  | true =>
    by_cases hex : ∃ i1 j1, 0 ≤ i1 ∧ i1 < g.length ∧ j1 < cols.toNat ∧ t.throwsAt i1 j1 ≠ none
    · obtain ⟨u, hu⟩ := logGridRows_throws r t g cols hc rows.toNat 0 s hr hex
      simp only [Logger.log_grid, hout, if_true, hu, Bool.false_eq_true, if_false]
      exact ⟨_, rfl⟩
    · have hno : ∀ i1 j1, 0 ≤ i1 → i1 < g.length → j1 < cols.toNat →
          t.throwsAt i1 j1 = none := by
        intro i1 j1 h1 h2 h3
        by_contra hcon
        exact hex ⟨i1, j1, h1, h2, h3, hcon⟩
      simp only [Logger.log_grid, hout, if_true,
        logGridRows_complete r t g cols hc rows.toNat 0 s hr hno]
      exact ⟨_, rfl⟩

theorem run_defined {D : Type} (r : Render D) (op : Op D) (p : Process)
    (h : op.wellFormed = true) : ∃ p1, Op.run r op p = some p1 := by
  cases op with
  | log_string str =>
    obtain ⟨q, hq⟩ := (log_defined r p.statics).1 str
    simp only [Op.run, hq, Op.dropResult, Option.map_some']
    exact ⟨_, rfl⟩
  | log_int i =>
    obtain ⟨q, hq⟩ := (log_defined r p.statics).2.1 i
    simp only [Op.run, hq, Op.dropResult, Option.map_some']
    exact ⟨_, rfl⟩
  | log_double d =>
    obtain ⟨q, hq⟩ := (log_defined r p.statics).2.2 d
    simp only [Op.run, hq, Op.dropResult, Option.map_some']
    exact ⟨_, rfl⟩
  | newLine nr =>
    simp only [Op.wellFormed, decide_eq_true_eq, Cstd.INT_MIN] at h
    obtain ⟨s1, hs1⟩ := newLine_defined p.statics nr h
    simp only [Op.run, hs1, Op.onResult, Option.map_some']
    exact ⟨_, rfl⟩
  | printTimes times str separator =>
    simp only [Op.wellFormed, decide_eq_true_eq, Cstd.INT_MIN] at h
    obtain ⟨s1, hs1⟩ := printTimes_defined p.statics times str separator h
    simp only [Op.run, hs1, Op.onResult, Option.map_some']
    exact ⟨_, rfl⟩
  | log_grid t d rows cols =>
    cases d with
    | none =>
      simp only [Op.run, Logger.log_grid, Op.dropResult, Option.map_some']
      exact ⟨_, rfl⟩
    | some g =>
      simp only [Op.wellFormed, Bool.and_eq_true, decide_eq_true_eq, List.all_eq_true] at h
      obtain ⟨q, hq⟩ := log_grid_defined r t p.statics g rows cols h.1 h.2
      simp only [Op.run, hq, Op.dropResult, Option.map_some']
      exact ⟨_, rfl⟩
  | logX szTypes vl =>
    obtain ⟨q, hq⟩ := logX_defined r p.statics szTypes vl h
    simp only [Op.run, hq, Op.dropResult, Option.map_some']
    exact ⟨_, rfl⟩
  | setPrefix _ | setPostfix _ | setSeparator _ | setOutput _
  | setEndline _ | resetNrOfLogs | clearPrefix | clearPostfix | resetSeparator =>
    simp only [Op.run, Op.onStatics]
    exact ⟨_, rfl⟩
  | setStream _ | getNrOfLogs | getPrefix | getPostfix | getSeparator | output | endl =>
    simp only [Op.run]
    exact ⟨_, rfl⟩

/-- C13 fails at the largest value of the counter: `logX("i", 1)` takes the
success count from 4294967295 to 0, which is less. -/
theorem count_drops_at_largest_value :
    (Op.run Render.whole (Op.logX "i" [VaArg.int 1])
        (Process.start { Logger.decorated with m_nrLogs := 4294967295 })).map
      (fun p => p.statics.m_nrLogs) = some 0 := by
  decide

/-- C13 as amended: for every state whose success count is below 4294967295
and every operation other than `resetNrOfLogs`, the operation gives a state
when its arguments fit, and the count after the operation is greater than or
equal to the count before it. -/
theorem count_not_decremented {D : Type} (r : Render D) (op : Op D) (p : Process)
    (hop : op ≠ Op.resetNrOfLogs) (hlt : p.statics.m_nrLogs < 4294967295) :
    (op.wellFormed = true → ∃ p1, Op.run r op p = some p1)
    ∧ ∀ p1, Op.run r op p = some p1 → p.statics.m_nrLogs ≤ p1.statics.m_nrLogs := by
  refine ⟨run_defined r op p, fun p1 h => ?_⟩
  rcases run_count r op p p1 h with hc | ⟨_, _, hc⟩ | ⟨hr, _⟩
  · omega
  · omega
  · exact absurd hr hop

/-- C13 as amended, at the decoration example: `logX("ii", 1, 2)` takes the
count from 0 to 1. -/
theorem count_not_decremented_witness :
    Logger.decorated.m_nrLogs
      ≤ Logger.m_nrLogs { Logger.decorated with m_stream := "P-1|2-Q\n", m_nrLogs := 1 } :=
  (count_not_decremented Render.whole (Op.logX "ii" [VaArg.int 1, VaArg.int 2])
    (Process.start Logger.decorated) (by intro h; cases h) (by decide)).2
    ⟨{ Logger.decorated with m_stream := "P-1|2-Q\n", m_nrLogs := 1 }, StreamRef.cout, []⟩
    (by decide)

/-- C14 fails for an emission that renders no value: the grid log of a grid
without rows, and `logX("x")` with its unrecognised tag, take the success
count from 0 to 1, the first without writing anything, the second writing
prefix, postfix and line terminator only. -/
theorem count_increases_without_value :
    Logger.decorated.m_nrLogs = 0
    ∧ (Op.run Render.whole (Op.log_grid Target.sound (some []) 0 0)
        (Process.start Logger.decorated)).map
        (fun p => (p.statics.m_nrLogs, p.statics.m_stream)) = some (1, "")
    ∧ (Op.run Render.whole (Op.logX "x" []) (Process.start Logger.decorated)).map
        (fun p => (p.statics.m_nrLogs, p.statics.m_stream)) = some (1, "P--Q\n") := by
  decide

/-- C14 as amended: for every state and every operation, the operation gives
a state when its arguments fit, and if the success count after the operation
is larger than before, then output was enabled and the operation was the log
of a single value, the log of a grid that is not the null pointer, or a typed
sequence whose descriptor has a character before its first NUL. -/
theorem count_increase_needs_emission {D : Type} (r : Render D) (op : Op D) (p : Process) :
    (op.wellFormed = true → ∃ p1, Op.run r op p = some p1)
    ∧ ∀ p1, Op.run r op p = some p1 → p.statics.m_nrLogs < p1.statics.m_nrLogs →
        p.statics.m_output = true ∧ op.reachesIncrement = true := by
  refine ⟨run_defined r op p, fun p1 h hlt => ?_⟩
  rcases run_count r op p p1 h with hc | ⟨ho, hr, _⟩ | ⟨_, hz⟩
  · omega
  · exact ⟨ho, hr⟩
  · omega

/-- C14 as amended, at the decoration example: `logX("ii", 1, 2)` takes the
count from 0 to 1, with output enabled. -/
theorem count_increase_needs_emission_witness :
    Logger.decorated.m_output = true
    ∧ (Op.logX "ii" [VaArg.int 1, VaArg.int 2] : Op Int).reachesIncrement = true :=
  (count_increase_needs_emission Render.whole (Op.logX "ii" [VaArg.int 1, VaArg.int 2])
    (Process.start Logger.decorated)).2
    ⟨{ Logger.decorated with m_stream := "P-1|2-Q\n", m_nrLogs := 1 }, StreamRef.cout, []⟩
    (by decide) (by decide)

/-! ## Single values as one-element sequences -/

theorem emitValue_enabled {D : Type} (r : Render D) (s : Logger) (e : Elem D) (h : e.fits)
    (hout : s.m_output = true) :
    emitValue r s e
      = some (true, { s with
          m_stream := s.m_stream ++ s.m_prefix ++ e.text r ++ s.m_postfix
            ++ (if s.m_endl = true then "\n" else ""),
          m_nrLogs := (s.m_nrLogs + 1) % 4294967296 }) := by
  have h1 := logX_one_tag r s e.tag e.arg (e.text r) hout (tag_ne_NUL e)
    (logXSwitch_elem r e h [])
  rw [show emitValue r s e
    = (Logger.logX r s (String.mk [e.tag]) [e.arg]).map (fun p => (decide (1 ≤ p.1), p.2))
    from rfl, h1]
  rfl

theorem emitValue_disabled {D : Type} (r : Render D) (s : Logger) (e : Elem D)
    (hout : s.m_output = false) : emitValue r s e = some (false, s) := by
  simp [emitValue, Logger.logX, hout]

theorem log_string_enabled {D : Type} (r : Render D) (s : Logger) (str : String)
    (hout : s.m_output = true) :
    Logger.log_string r s str
      = some (true, { s with
          m_stream := s.m_stream ++ s.m_prefix ++ Cstd.c_str str ++ s.m_postfix
            ++ (if s.m_endl = true then "\n" else ""),
          m_nrLogs := (s.m_nrLogs + 1) % 4294967296 }) := by
  have h := logX_one_tag r s 's' (VaArg.str (some (Cstd.c_str str))) (Cstd.c_str str) hout
    (by decide) (by simp [Logger.logXSwitch, Logger.va_arg_str])
  rw [show Logger.log_string r s str
    = Logger.toBool (Logger.logX r s (String.mk ['s']) [VaArg.str (some (Cstd.c_str str))])
    from rfl, h]
  rfl

theorem log_double_enabled {D : Type} (r : Render D) (s : Logger) (d : D)
    (hout : s.m_output = true) :
    Logger.log_double r s d
      = some (true, { s with
          m_stream := s.m_stream ++ s.m_prefix ++ r.ofFloat d ++ s.m_postfix
            ++ (if s.m_endl = true then "\n" else ""),
          m_nrLogs := (s.m_nrLogs + 1) % 4294967296 }) := by
  have h := logX_one_tag r s 'd' (VaArg.double d) (r.ofFloat d) hout
    (by decide) (by simp [Logger.logXSwitch, Logger.va_arg_double])
  rw [show Logger.log_double r s d
    = Logger.toBool (Logger.logX r s (String.mk ['d']) [VaArg.double d]) from rfl, h]
  rfl

theorem log_disabled {D : Type} (r : Render D) (s : Logger) (hout : s.m_output = false) :
    (∀ str : String, Logger.log_string r s str = some (false, s))
    ∧ (∀ i : Int, Logger.log_int r s i = some (false, s))
    ∧ (∀ d : D, Logger.log_double r s d = some (false, s)) := by
  refine ⟨fun str => ?_, fun i => ?_, fun d => ?_⟩
  · simp [Logger.log_string, Logger.toBool, Logger.logX, hout]
  · simp [Logger.log_int, Logger.toBool, Logger.logX, hout]
  · simp [Logger.log_double, Logger.toBool, Logger.logX, hout]

/-- C19: for every state, `log` of an int or a double is the emission of the
one-element sequence of tag `i` or `d` with this value, and `log` of a string
is the emission of the one-element sequence of tag `s` with the C string of the
value, `str.c_str()`, as its argument: same text, same state, and the result
is `true` exactly when the count of that emission is at least 1. With output
enabled `log` writes prefix, the rendering of the value, postfix and the line
terminator when line ending is enabled, and no separator. -/
theorem log_is_one_element_sequence {D : Type} (r : Render D) (s : Logger) :
    (∀ i : Int, Logger.log_int r s i = emitValue r s (Elem.i i))
    ∧ (∀ d : D, Logger.log_double r s d = emitValue r s (Elem.d d))
    ∧ (∀ str : String,
        Logger.log_string r s str = emitValue r s (Elem.s (some (Cstd.c_str str))))
    ∧ (s.m_output = true →
        (∀ i : Int, Logger.log_int r s i
          = some (true, { s with
              m_stream := s.m_stream ++ s.m_prefix ++ toString i ++ s.m_postfix
                ++ (if s.m_endl = true then "\n" else ""),
              m_nrLogs := (s.m_nrLogs + 1) % 4294967296 }))
        ∧ (∀ d : D, Logger.log_double r s d
          = some (true, { s with
              m_stream := s.m_stream ++ s.m_prefix ++ r.ofFloat d ++ s.m_postfix
                ++ (if s.m_endl = true then "\n" else ""),
              m_nrLogs := (s.m_nrLogs + 1) % 4294967296 }))
        ∧ (∀ str : String, Logger.log_string r s str
          = some (true, { s with
              m_stream := s.m_stream ++ s.m_prefix ++ Cstd.c_str str ++ s.m_postfix
                ++ (if s.m_endl = true then "\n" else ""),
              m_nrLogs := (s.m_nrLogs + 1) % 4294967296 }))) := by
  by_cases hout : s.m_output = true
  · refine ⟨fun i => ?_, fun d => ?_, fun str => ?_, fun _ => ⟨fun i => ?_, fun d => ?_,
      fun str => ?_⟩⟩
    · rw [log_int_enabled r s i hout, emitValue_enabled r s (Elem.i i) trivial hout]
      rfl
    · rw [log_double_enabled r s d hout, emitValue_enabled r s (Elem.d d) trivial hout]
      rfl
    · rw [log_string_enabled r s str hout,
        emitValue_enabled r s (Elem.s (some (Cstd.c_str str))) trivial hout]
      rfl
    · exact log_int_enabled r s i hout
    · exact log_double_enabled r s d hout
    · exact log_string_enabled r s str hout
  · have hoff : s.m_output = false := by simpa using hout
    obtain ⟨hs, hi, hd⟩ := log_disabled r s hoff
    refine ⟨fun i => ?_, fun d => ?_, fun str => ?_, fun hcontra => absurd hcontra hout⟩
    · rw [hi, emitValue_disabled r s _ hoff]
    · rw [hd, emitValue_disabled r s _ hoff]
    · rw [hs, emitValue_disabled r s _ hoff]

/-- C19 at the decoration example: `log(42)` writes `P-42-Q` and a
line terminator, without the separator. -/
theorem log_is_one_element_sequence_witness :
    Logger.log_int Render.whole Logger.decorated 42
      = some (true, { Logger.decorated with m_stream := "P-42-Q\n", m_nrLogs := 1 }) :=
  (log_is_one_element_sequence Render.whole Logger.decorated).2.2.2 rfl |>.1 42

/-! ## Unrecognised tags -/

theorem logXSwitch_unrecognised {D : Type} (r : Render D) (ch : Char) (vl : List (VaArg D))
    (h : recognised ch = false) : Logger.logXSwitch r ch vl = some ("", vl) := by
  simp only [recognised, decide_eq_false_iff_not, not_or] at h
  obtain ⟨hb, hi, hf, hd, hc, hs⟩ := h
  simp [Logger.logXSwitch, hb, hi, hf, hd, hc, hs]

theorem argsMatch_unrecognised {D : Type} (ch : Char) (rest : List Char) (vl : List (VaArg D))
    (hch : ch ≠ Cstd.NUL) (h : recognised ch = false) :
    argsMatch (ch :: rest) vl = argsMatch rest vl := by
  simp only [recognised, decide_eq_false_iff_not, not_or] at h
  obtain ⟨hb, hi, hf, hd, hc, hs⟩ := h
  simp [argsMatch, hch, hb, hi, hf, hd, hc, hs]

theorem logXSwitch_head {D : Type} (r : Render D) (ch : Char) (rest : List Char) (a : VaArg D)
    (vl1 vl2 : List (VaArg D)) (hch : ch ≠ Cstd.NUL) (hrec : recognised ch = true)
    (h : argsMatch (ch :: rest) (a :: vl1) = true) :
    ∃ t, Logger.logXSwitch r ch (a :: vl1) = some (t, vl1)
      ∧ Logger.logXSwitch r ch (a :: vl2) = some (t, vl2)
      ∧ argsMatch rest vl1 = true := by
  unfold argsMatch at h
  rw [if_neg hch] at h
  simp only [recognised, decide_eq_true_eq] at hrec
  unfold Logger.logXSwitch
  rcases hrec with hb | hb | hb | hb | hb | hb <;> subst hb <;> cases a <;>
    simp_all [Logger.va_arg_int, Logger.va_arg_double, Logger.va_arg_str]

theorem logXLoop_asEmptyStrings {D : Type} (r : Render D) (d : List Char) :
    ∀ (vl : List (VaArg D)) (i : Nat) (s : Logger), argsMatch d vl = true →
      Logger.logXLoop r d i vl s
        = Logger.logXLoop r (asEmptyStrings d vl).1 i (asEmptyStrings d vl).2 s := by
  induction d with
  | nil => intro vl i s _; rfl
  | cons ch rest ih =>
    intro vl i s h
    by_cases hch : ch = Cstd.NUL
    · simp [asEmptyStrings, hch]
    · by_cases hrec : recognised ch = true
      · cases vl with
        | nil => simp [asEmptyStrings, hch, hrec]
        | cons a vl1 =>
          obtain ⟨t, h1, h2, hrest⟩ := logXSwitch_head r ch rest a vl1
            (asEmptyStrings rest vl1).2 hch hrec h
          simp only [asEmptyStrings, if_neg hch, hrec, if_true, Logger.logXLoop, h1, h2]
          exact ih vl1 (i + 1) _ hrest
      · have hun : recognised ch = false := by simpa using hrec
        have hrest : argsMatch rest vl = true := by
          rw [← argsMatch_unrecognised ch rest vl hch hun]; exact h
        have hs : ('s' : Char) ≠ Cstd.NUL := by decide
        have hsw : Logger.logXSwitch r 's'
            (VaArg.str (some "") :: (asEmptyStrings rest vl).2)
            = some ("", (asEmptyStrings rest vl).2) := by
          simp [Logger.logXSwitch, Logger.va_arg_str]
        simp only [asEmptyStrings, if_neg hch, hrec, Bool.false_eq_true, if_false,
          Logger.logXLoop, logXSwitch_unrecognised r ch vl hun, if_neg hs, hsw]
        exact ih vl (i + 1) _ hrest

theorem tagCount_eq_length (d : List Char) (h : Cstd.NUL ∉ d) : tagCount d = d.length := by
  induction d with
  | nil => rfl
  | cons ch rest ih =>
    have hch : ch ≠ Cstd.NUL := fun hc => h (by simp [hc])
    have hrest : Cstd.NUL ∉ rest := fun hc => h (List.mem_cons_of_mem _ hc)
    have hcount : tagCount (ch :: rest) = tagCount rest + 1 := by
      simp [tagCount, List.takeWhile_cons, hch]
    rw [hcount, ih hrest]
    rfl

/-- C20 fails for the NUL character, which is no recognised tag either: for the
descriptor `i`, NUL, `i` the call returns 1, not the length 3, and writes one
element, whereas with `s` and an empty text in place of the NUL the call
returns 3 and writes three elements. -/
theorem logX_stops_at_NUL :
    (String.mk ['i', Cstd.NUL, 'i']).length = 3
    ∧ (Logger.logX Render.whole Logger.decorated (String.mk ['i', Cstd.NUL, 'i'])
        [VaArg.int 1, VaArg.int 2]).map (fun p => (p.1, p.2.m_stream))
      = some (1, "P-1-Q\n")
    ∧ (Logger.logX Render.whole Logger.decorated "isi"
        [VaArg.int 1, VaArg.str (some ""), VaArg.int 2]).map (fun p => (p.1, p.2.m_stream))
      = some (3, "P-1||2-Q\n") := by
  decide

/-- C20 as amended: with output enabled, for every descriptor and every
argument list that matches it, replacing each unrecognised tag before the
first NUL by an `s` element with empty text gives the same result of `logX`:
the same value returned and the same state, so the same text and the same
success count. The value returned is the number of characters before the
first NUL, which is the length of the descriptor when it holds no NUL. -/
theorem logX_unrecognised_as_empty_string {D : Type} (r : Render D) (s : Logger)
    (szTypes : String) (vl : List (VaArg D)) (hout : s.m_output = true)
    (hargs : argsMatch szTypes.data vl = true) :
    Logger.logX r s szTypes vl
      = Logger.logX r s (String.mk (asEmptyStrings szTypes.data vl).1)
          (asEmptyStrings szTypes.data vl).2
    ∧ (∃ s1, Logger.logX r s szTypes vl = some ((tagCount szTypes.data : Int), s1))
    ∧ (Cstd.NUL ∉ szTypes.data → tagCount szTypes.data = szTypes.length) := by
  refine ⟨?_, ?_, fun h => tagCount_eq_length szTypes.data h⟩
  · simp only [Logger.logX, logXLoop_asEmptyStrings r szTypes.data vl 0 s hargs]
  · obtain ⟨t, ht⟩ := logXLoop_of_argsMatch r szTypes.data vl 0 s hargs
    simp only [Logger.logX, hout, if_true, ht, Nat.zero_add]
    by_cases hz : tagCount szTypes.data ≠ 0
    · rw [if_pos hz]
      exact ⟨_, rfl⟩
    · rw [if_neg hz]
      exact ⟨_, rfl⟩

/-- C20 as amended, at the decoration example: `logX("ixi", 1, 2)` and
`logX("isi", 1, "", 2)` both return 3 and write `P-1||2-Q`. -/
theorem logX_unrecognised_as_empty_string_witness :
    Logger.logX Render.whole Logger.decorated "ixi" [VaArg.int 1, VaArg.int 2]
      = Logger.logX Render.whole Logger.decorated "isi"
          [VaArg.int 1, VaArg.str (some ""), VaArg.int 2] :=
  (logX_unrecognised_as_empty_string Render.whole Logger.decorated "ixi"
    [VaArg.int 1, VaArg.int 2] rfl rfl).1
